import Mathlib

/-!
# aporia: the login form's focus state machine and the banner layout

A shallow embedding of `src/tui/tui.go` and `src/tui/ascii_art.go`.

* Go `int` values are `Int`; Go's `/` on `int` truncates toward zero and is
  `Int.tdiv`.  Every sum and difference the code forms is taken between slice
  lengths, string lengths, a focus index and terminal dimensions, so no
  wrap-around is involved in the ranges the theorems speak about.
* A Go `string` holding UTF-8 text is a Lean `String`: `len(s)` is
  `String.utf8ByteSize`, `utf8.RuneCountInString(s)` is `String.length`, and the
  bytes of `s` are those of its UTF-8 encoding.
* Indexing and slicing return `Option`; `none` is Go's run-time panic.
* Calls into the terminal driver, the authenticator and `os.Exit` are recorded
  in an effect log kept beside the `Tui` value.
-/

namespace Aporia

/-! ## Helpers of `tui.go` -/

/-- Go `maxInt` (tui.go 209-215). -/
def maxInt (a : Int) (b : Int) : Int :=
  if a > b then a else b

/-- Go `minInt` (tui.go 217-223). -/
def minInt (a : Int) (b : Int) : Int :=
  if a > b then b else a

/-- Go slice indexing `xs[i]` with an `int` index: `none` when out of range. -/
def goIndex {α : Type} (xs : List α) (i : Int) : Option α :=
  if 0 ≤ i then xs[i.toNat]? else none

/-- Go slice element assignment `xs[i] = x`: `none` when out of range. -/
def goAssign {α : Type} (xs : List α) (i : Nat) (x : α) : Option (List α) :=
  if i < xs.length then some (xs.set i x) else none

/-! ## Data consumed from the `config` package -/

/-- Modelled from the spec: the `config.Session` type is declared outside
`src/`; a session descriptor is a name plus launch metadata (spec §3,
SessionCatalog).  The Go zero value has both strings empty. -/
structure Session where
  Name : String
  Exec : String
  deriving DecidableEq, Repr

/-- The Go zero value of `config.Session`. -/
def Session.zero : Session := { Name := "", Exec := "" }

/-- Modelled from the spec: the last-used record (`config.LastSession`), a
session name and a user name (spec §6, Configuration). -/
structure LastSession where
  SessionName : String
  User : String
  deriving DecidableEq, Repr

/-- Modelled from the spec: `config.Config` as far as `tui.go` reads it: the
ordered session list and the optional (nil-able) last-used record. -/
structure Config where
  Sessions : List Session
  LastSession : Option LastSession
  deriving DecidableEq, Repr

/-! ## Fields -/

/-- Modelled from the spec: the picker variant of a field (spec §3): option
labels and the current-selection index; `selected` is the member `getFields`
assigns. -/
structure picker where
  options : List String
  selected : Int
  deriving DecidableEq, Repr

/-- Modelled from the spec: the text-input variant of a field (spec §3): a
title, the masked flag and the buffer; `contents` is the member `getFields`
assigns. -/
structure input where
  title : String
  masked : Bool
  contents : String
  deriving DecidableEq, Repr

/-- Modelled from the spec: the `field` interface of the form, with its two
variants (spec §3, §9). -/
inductive field where
  | ofPicker (p : picker)
  | ofInput (i : input)
  deriving DecidableEq, Repr

/-- Modelled from the spec: `newPicker` is declared outside `src/`; a fresh
picker holds the given labels and its default selection index 0. -/
def newPicker (options : List String) : picker :=
  { options := options, selected := 0 }

/-- Modelled from the spec: `newInput` is declared outside `src/`; a fresh text
input has the given title and masked flag and an empty buffer. -/
def newInput (title : String) (masked : Bool) : input :=
  { title := title, masked := masked, contents := "" }

/-! ## The UI state -/

/-- Go `TermSize` (tui.go 28-31). -/
structure TermSize where
  Lines : Int
  Cols : Int
  deriving DecidableEq, Repr

/-- Go `Tui` (tui.go 15-26).  `oldState` is a token standing for the saved
`*term.State`; the banner member `asciiArt` is not read by the embedded code. -/
structure Tui where
  config : Config
  termSize : TermSize
  position : Int
  message : String
  fields : List field
  shouldBeRedrawn : Bool
  lastDrawnMessage : String
  loggedIn : Bool
  oldState : Nat
  deriving DecidableEq, Repr

/-- Go `NextPosition` (tui.go 134-136). -/
def NextPosition (self : Tui) : Tui :=
  { self with position := minInt (self.position + 1) ((self.fields.length : Int) - 1) }

/-- Go `PrevPosition` (tui.go 138-140). -/
def PrevPosition (self : Tui) : Tui :=
  { self with position := maxInt (self.position - 1) 0 }

/-- Go `onLastPosition` (tui.go 142-144). -/
def onLastPosition (self : Tui) : Bool :=
  decide (self.position = (self.fields.length : Int) - 1)

/-- A focus command, for stating properties of command sequences. -/
inductive NavCmd where
  | next
  | prev
  deriving DecidableEq, Repr

/-- One focus command applied to the UI state. -/
def applyNav (self : Tui) : NavCmd → Tui
  | NavCmd.next => NextPosition self
  | NavCmd.prev => PrevPosition self

/-- A finite sequence of focus commands, applied left to right. -/
def runNav (self : Tui) (cmds : List NavCmd) : Tui :=
  cmds.foldl applyNav self

/-! ## Building the form -/

/-- The `for i, session := range self.config.Sessions` loop of `getFields`
(tui.go 93-98): `i` is the running index, the accumulator is
`(sessionNames, lastSessionIndex)`. -/
def getFieldsLoop (last : Option LastSession) :
    List Session → Int → List String × Int → List String × Int
  | [], _, acc => acc
  | session :: rest, i, (sessionNames, lastSessionIndex) =>
    getFieldsLoop last rest (i + 1)
      (sessionNames ++ [session.Name],
        match last with
        | some l => if l.SessionName = session.Name then i else lastSessionIndex
        | none => lastSessionIndex)

/-- Go `getFields` (tui.go 89-118).  The method writes `self.position` and
returns the field list, so the embedding returns both. -/
def getFields (self : Tui) : Tui × List field :=
  let r := getFieldsLoop self.config.LastSession self.config.Sessions 0 ([], -1)
  let sessionNames := r.1
  let lastSessionIndex := r.2
  let wmInput := newPicker sessionNames
  let userInput := newInput "username" false
  let passwdInput := newInput "password" true
  let position := self.position
  let wmInput := if lastSessionIndex > -1 then { wmInput with selected := lastSessionIndex } else wmInput
  let position := if lastSessionIndex > -1 then 1 else position
  let userInput :=
    match self.config.LastSession with
    | some l => { userInput with contents := l.User }
    | none => userInput
  let position :=
    match self.config.LastSession with
    | some _ => 2
    | none => position
  ({ self with position := position },
    [field.ofPicker wmInput, field.ofInput userInput, field.ofInput passwdInput])

/-- The value `New` returns when the terminal size and state are available
(tui.go 47-60); `lines`, `cols` and `state` are what the terminal driver
reported. -/
def New (config : Config) (lines : Int) (cols : Int) (state : Nat) : Tui :=
  let self : Tui :=
    { config := config
      termSize := { Lines := lines, Cols := cols }
      position := 0
      message := "SATA ANDAGI"
      fields := []
      shouldBeRedrawn := true
      lastDrawnMessage := ""
      loggedIn := false
      oldState := state }
  let r := getFields self
  { r.1 with fields := r.2 }

/-! ## Effects -/

/-- The terminal and process effects the embedded code performs, in the order
of the calls: `term.MakeRaw`, `term.Restore` of a saved state,
`login.Authenticate`, `os.Exit`, `fmt.Printf` of a read error, the screen
redraw `Tui.draw` and one call of the key reader. -/
inductive Effect where
  | makeRaw
  | restore (saved : Nat)
  | authenticate (username : String) (password : String) (session : Session)
  | exit (code : Int)
  | print (text : String)
  | redraw
  | readKey
  deriving DecidableEq, Repr

/-- The UI value together with the log of effects performed so far (oldest
first). -/
structure World where
  ui : Tui
  log : List Effect
  deriving DecidableEq, Repr

/-- What a call leaves behind: it returned, the process exited with a status,
or a run-time panic (index out of range) stopped it. -/
inductive Step where
  | running (w : World)
  | exited (code : Int) (w : World)
  | panicked (w : World)
  deriving DecidableEq, Repr

/-- The collaborators declared outside `src/`, taken as parameters:
`getContents` and `onInput` of the `field` interface, `login.Authenticate`
(`none` is a nil error, `some d` an error whose text is `d`; it may depend on
the effects performed so far) and the screen redraw `Tui.draw`. -/
structure Env where
  getContents : field → String
  onInput : field → Tui → List Int → Tui
  authenticate : List Effect → String → String → Session → Option String
  draw : Tui → Tui

/-- Go `reset` (tui.go 122-127). -/
def reset (w : World) : World :=
  let log := w.log ++ [Effect.makeRaw]
  let self := { w.ui with loggedIn := false }
  let self := { self with position := 0 }
  let r := getFields self
  { ui := { r.1 with fields := r.2 }, log := log }

/-- Go `failedPasswordReset` (tui.go 129-132). -/
def failedPasswordReset (w : World) : Step :=
  let w := { w with log := w.log ++ [Effect.makeRaw] }
  match goAssign w.ui.fields 2 (field.ofInput (newInput "password" true)) with
  | some fields => Step.running { w with ui := { w.ui with fields := fields } }
  | none => Step.panicked w

/-- The session lookup loop of `login` (tui.go 186-192): the first session of
the list with the given name, the zero value when there is none. -/
def findSession (sessions : List Session) (sessionName : String) : Session :=
  match sessions with
  | [] => Session.zero
  | this_session :: rest =>
    if this_session.Name = sessionName then this_session else findSession rest sessionName

/-- Go `login` (tui.go 176-207). -/
def login (env : Env) (w : World) : Step :=
  let w := { w with ui := { w.ui with shouldBeRedrawn := true } }
  match goIndex w.ui.fields 0 with
  | none => Step.panicked w
  | some f0 =>
  let sessionName := env.getContents f0
  match goIndex w.ui.fields 1 with
  | none => Step.panicked w
  | some f1 =>
  let username := env.getContents f1
  match goIndex w.ui.fields 2 with
  | none => Step.panicked w
  | some f2 =>
  let password := env.getContents f2
  let w := { w with log := w.log ++ [Effect.restore w.ui.oldState] }
  let session := findSession w.ui.config.Sessions sessionName
  let err := env.authenticate w.log username password session
  let w := { w with log := w.log ++ [Effect.authenticate username password session] }
  match err with
  | some description =>
    match failedPasswordReset w with
    | Step.running w => Step.running { w with ui := { w.ui with message := description } }
    | other => other
  | none =>
    let w := reset w
    let w := { w with ui := { w.ui with message := "Success!" } }
    Step.running { w with ui := { w.ui with loggedIn := true } }

/-- Go `handleInput` (tui.go 146-174). -/
def handleInput (env : Env) (w : World) (symbol : List Int) : Step :=
  if symbol = [27, 91, 65] then
    Step.running { w with ui := PrevPosition w.ui }
  else if symbol = [27, 91, 66] ∨ symbol = [9] then
    Step.running { w with ui := NextPosition w.ui }
  else if symbol = [13] then
    if onLastPosition w.ui then
      login env w
    else
      Step.running { w with ui := NextPosition w.ui }
  else if symbol = [3] then
    Step.exited 1 { w with log := w.log ++ [Effect.exit 1] }
  else
    match goIndex w.ui.fields w.ui.position with
    | some f => Step.running { w with ui := env.onInput f w.ui symbol }
    | none => Step.panicked w

/-- One result of the key reader passed to `Start`: a decoded key sequence or
a read error with its text. -/
inductive ReadResult where
  | key (symbol : List Int)
  | err (text : String)
  deriving DecidableEq, Repr

/-- How a run of `Start` over a finite supply of reader results ends: the loop
left through `break` and `Start` returned, the supply ran dry while the loop
was waiting in the reader, the process exited, or a panic stopped it.
`unread` is the part of the supply never asked for. -/
inductive StartResult where
  | returned (w : World) (unread : List ReadResult)
  | waiting (w : World)
  | exited (code : Int) (w : World) (unread : List ReadResult)
  | panicked (w : World) (unread : List ReadResult)
  deriving DecidableEq, Repr

/-- The call `self.draw()` of `Start`: the redraw is logged and the absent
method's change of the UI value is `env.draw`. -/
def drawUi (env : Env) (w : World) : World :=
  { ui := env.draw w.ui, log := w.log ++ [Effect.redraw] }

/-- The `for` loop of `Start` (tui.go 67-80), by recursion on the supply of
reader results. -/
def startLoop (env : Env) : List ReadResult → World → StartResult
  | [], w => StartResult.waiting { w with log := w.log ++ [Effect.readKey] }
  | r :: rest, w =>
    let w := { w with log := w.log ++ [Effect.readKey] }
    match r with
    | ReadResult.err text => startLoop env rest { w with log := w.log ++ [Effect.print text] }
    | ReadResult.key symbol =>
      match handleInput env w symbol with
      | Step.running w =>
        if w.ui.loggedIn then StartResult.returned w rest
        else startLoop env rest (drawUi env w)
      | Step.exited code w => StartResult.exited code w rest
      | Step.panicked w => StartResult.panicked w rest

/-- Go `Start` (tui.go 63-81). -/
def Start (env : Env) (reads : List ReadResult) (w : World) : StartResult :=
  let w := reset w
  let w := drawUi env w
  startLoop env reads w

/-! ## The banner (`ascii_art.go`) -/

/-- Go `len(s)` of a string: its length in bytes. -/
def goLen (s : String) : Int :=
  (s.utf8ByteSize : Int)

/-- Go `utf8.RuneCountInString(s)`: the number of characters of the text. -/
def runeCount (s : String) : Int :=
  (s.length : Int)

/-- The bytes of a Go string. -/
def goBytes (s : String) : List UInt8 :=
  s.data.flatMap String.utf8EncodeChar

/-- Go string slicing `s[lo:hi]` on bytes: `none` (a panic) unless
`0 ≤ lo ≤ hi ≤ len(s)`. -/
def goSlice (s : String) (lo : Int) (hi : Int) : Option (List UInt8) :=
  if 0 ≤ lo ∧ lo ≤ hi ∧ hi ≤ goLen s then
    some (((goBytes s).drop lo.toNat).take (hi.toNat - lo.toNat))
  else none

/-- Go `strings.Split(art, "\n")` on the characters of the text: `cur` holds
the characters of the piece being read, newest first. -/
def splitAux : List Char → List Char → List String
  | cur, [] => [String.mk cur.reverse]
  | cur, c :: cs =>
    if c = '\n' then String.mk cur.reverse :: splitAux [] cs
    else splitAux (c :: cur) cs

/-- Go `strings.Split(art, "\n")`. -/
def splitLines (art : String) : List String :=
  splitAux [] art.data

/-- Go `asciiArt` (ascii_art.go 12-16). -/
structure asciiArt where
  strLines : List String
  lines : Int
  cols : Int
  deriving DecidableEq, Repr

/-- One pass of the loop body of `newAscii` (ascii_art.go 24-26). -/
def longestStep (longestLine : Int) (line : String) : Int :=
  if goLen line > longestLine then runeCount line else longestLine

/-- Go `newAscii` (ascii_art.go 18-34); `none` is the panic of `lines[0]` on
an empty slice. -/
def newAscii (art : String) : Option asciiArt :=
  let lines := splitLines art
  match lines with
  | [] => none
  | first :: rest =>
    let longestLine := rest.foldl longestStep (runeCount first)
    some { strLines := lines, cols := longestLine, lines := (lines.length : Int) }

/-- One `fmt.Print` of `asciiArt.draw`: the blank row `"\n\r"`, or a banner row
made of `indent` spaces, the bytes of the slice and `"\n\r"`. -/
inductive Printed where
  | blank
  | row (indent : Int) (text : List UInt8)
  deriving DecidableEq, Repr

/-- How `asciiArt.draw` ends, with everything printed until then: it returned,
a panic (index or slice bounds out of range) stopped it, or the step budget of
the embedding ran out. -/
inductive DrawResult where
  | done (out : List Printed)
  | panic (out : List Printed)
  | outOfFuel (out : List Printed)
  deriving DecidableEq, Repr

/-- Everything printed by a run of `asciiArt.draw`. -/
def DrawResult.out : DrawResult → List Printed
  | DrawResult.done out => out
  | DrawResult.panic out => out
  | DrawResult.outOfFuel out => out

/-- The first loop of `asciiArt.draw` (ascii_art.go 43-45): `startLine` blank
rows. -/
def blankRows (startLine : Int) : List Printed :=
  List.replicate startLine.toNat Printed.blank

/-- The second loop of `asciiArt.draw` (ascii_art.go 47-50), from counter `i`
on, with `out` what was printed before. -/
def drawLoop (self : asciiArt) (termSize : TermSize) (linesSkip colsSkip startCol : Int) :
    Nat → Nat → List Printed → DrawResult
  | 0, _, out => DrawResult.outOfFuel out
  | fuel + 1, i, out =>
    if (i : Int) < termSize.Lines ∧ (i : Int) + linesSkip < self.lines then
      match goIndex self.strLines ((i : Int) + linesSkip) with
      | none => DrawResult.panic out
      | some line =>
        let maxSize := minInt (termSize.Cols + colsSkip) (goLen line)
        match goSlice line colsSkip maxSize with
        | none => DrawResult.panic out
        | some text =>
          drawLoop self termSize linesSkip colsSkip startCol fuel (i + 1)
            (out ++ [Printed.row startCol text])
    else DrawResult.done out

/-- Go `asciiArt.draw` (ascii_art.go 36-51).  The loop runs at most
`termSize.Lines` times, so a budget of one more step lets it reach its exit
test. -/
def asciiArt.draw (self : asciiArt) (termSize : TermSize) : DrawResult :=
  let linesSkip := maxInt ((self.lines - termSize.Lines).tdiv 2) 0
  let colsSkip := maxInt ((self.cols - termSize.Cols).tdiv 2) 0
  let startLine := maxInt ((termSize.Lines - self.lines).tdiv 2) 0
  let startCol := maxInt ((termSize.Cols - self.cols).tdiv 2) 0
  drawLoop self termSize linesSkip colsSkip startCol (termSize.Lines.toNat + 1) 0
    (blankRows startLine)

/-- The banner rows among the printed items, as (indent, number of bytes). -/
def rowSizes : List Printed → List (Int × Nat)
  | [] => []
  | Printed.blank :: rest => rowSizes rest
  | Printed.row indent text :: rest => (indent, text.length) :: rowSizes rest

/-- The number of blank rows among the printed items. -/
def blankCount : List Printed → Nat
  | [] => 0
  | Printed.blank :: rest => blankCount rest + 1
  | Printed.row _ _ :: rest => blankCount rest

/-! ## Sample values -/

/-- The configuration of the spec's scenario: sessions "gnome" and "sway",
last-used session "sway", last-used user "alice". -/
def sampleConfig : Config :=
  { Sessions := [{ Name := "gnome", Exec := "gnome-session" }, { Name := "sway", Exec := "sway" }]
    LastSession := some { SessionName := "sway", User := "alice" } }

/-- The form `New` builds for `sampleConfig` on a 24 x 80 terminal. -/
def sampleTui : Tui :=
  New sampleConfig 24 80 7

/-- Modelled from the spec: `getContents` for the sample collaborators (spec
§4.1): a picker gives the label at its index, a text input its buffer. -/
def sampleGetContents : field → String
  | field.ofPicker p => (goIndex p.options p.selected).getD ""
  | field.ofInput i => i.contents

/-- Sample collaborators: the authenticator accepts only the password
"hunter2", key input is ignored by the fields, and the redraw clears the
needs-redraw flag. -/
def sampleEnv : Env :=
  { getContents := sampleGetContents
    onInput := fun _ self _ => self
    authenticate := fun _ _ password _ => if password = "hunter2" then none else some "bad password"
    draw := fun self => { self with shouldBeRedrawn := false, lastDrawnMessage := self.message } }

/-- The sample form after `Start` has reset and drawn it and is waiting for a
key: raw mode entered, one redraw done. -/
def sampleWorld : World :=
  drawUi sampleEnv (reset { ui := sampleTui, log := [] })

/-- The session picker of the sample form. -/
def samplePickerField : field :=
  field.ofPicker { options := ["gnome", "sway"], selected := 1 }

/-- The username field of the sample form. -/
def sampleUserField : field :=
  field.ofInput { title := "username", masked := false, contents := "alice" }

/-- The empty password field of the sample form. -/
def sampleEmptyPasswordField : field :=
  field.ofInput { title := "password", masked := true, contents := "" }

/-- The password field of the sample form with the accepted password typed. -/
def sampleTypedPasswordField : field :=
  field.ofInput { title := "password", masked := true, contents := "hunter2" }

/-- The sample form with the accepted password typed into the password field,
waiting for a key. -/
def sampleTypedWorld : World :=
  { ui := { sampleWorld.ui with
            fields := [samplePickerField, sampleUserField, sampleTypedPasswordField] }
    log := sampleWorld.log }

/-- The sample form after the up-arrow key moved the focus to the username
field and the screen was redrawn, at the moment the next key has been read. -/
def sampleEditingWorld : World :=
  { ui := sampleEnv.draw (PrevPosition sampleWorld.ui)
    log := sampleWorld.log ++ [Effect.readKey, Effect.redraw, Effect.readKey] }

/-! ## Reading the effect log -/

/-- Whether an effect is a process exit. -/
def Effect.isExit : Effect → Bool
  | Effect.exit _ => true
  | _ => false

/-- Whether, in a sequence of effects (oldest first), a restore of the saved
terminal state `saved` is followed by a process exit. -/
def restoredBeforeExit (saved : Nat) : List Effect → Bool
  | [] => false
  | Effect.restore s :: rest =>
    (decide (s = saved) && rest.any Effect.isExit) || restoredBeforeExit saved rest
  | _ :: rest => restoredBeforeExit saved rest

/-! ## The banner width the spec describes -/

/-- The width the spec gives a banner (spec §3, Banner), for comparison with
`asciiArt.cols`: the largest number of characters of any of its lines. -/
def specWidth (lines : List String) : Int :=
  lines.foldl (fun widest line => max widest (runeCount line)) 0

/-! ## Runs of `handleInput` -/

/-- A finite sequence of key sequences handled one after the other by
`handleInput`; the run stops at the first key that does not return (process
exit or panic). -/
def runKeys (env : Env) : World → List (List Int) → Step
  | w, [] => Step.running w
  | w, symbol :: rest =>
    match handleInput env w symbol with
    | Step.running w' => runKeys env w' rest
    | other => other

/-- The form invariant: three fields and the focus index on one of them. -/
def formInRange (self : Tui) : Prop :=
  self.fields.length = 3 ∧ 0 ≤ self.position ∧ self.position ≤ 2

/-! ## Joining lines -/

/-- The characters of a list of lines joined by the separator '\n', for
stating what `strings.Split` returns. -/
def joinLines : List String → List Char
  | [] => []
  | [line] => line.data
  | line :: rest => line.data ++ '\n' :: joinLines rest

/-! ## The clipped excerpt the spec describes -/

/-- The excerpt of a banner line the spec describes for a terminal narrower
than the banner (spec §4.3), for comparison with what `draw` prints: the text
that starts `skip` characters in and is `width` characters wide (shorter when
the line ends before). -/
def specExcerpt (line : String) (skip : Nat) (width : Nat) : String :=
  String.mk ((line.data.drop skip).take width)

/-! ## Focus navigation -/

/-- `minInt` is the smaller of its arguments. -/
theorem minInt_eq_min (a b : Int) : minInt a b = min a b := by
  unfold minInt
  split <;> omega

/-- `maxInt` is the larger of its arguments. -/
theorem maxInt_eq_max (a b : Int) : maxInt a b = max a b := by
  unfold maxInt
  split <;> omega

/-- The focus commands leave the field list alone. -/
theorem applyNav_fields (s : Tui) (c : NavCmd) : (applyNav s c).fields = s.fields := by
  cases c <;> rfl

/-- One focus command keeps an in-range focus index in range. -/
theorem applyNav_position_inRange (s : Tui) (c : NavCmd)
    (h0 : 0 ≤ s.position) (h1 : s.position ≤ (s.fields.length : Int) - 1) :
    0 ≤ (applyNav s c).position ∧
      (applyNav s c).position ≤ ((applyNav s c).fields.length : Int) - 1 := by
  rw [applyNav_fields]
  cases c
  · show 0 ≤ minInt (s.position + 1) ((s.fields.length : Int) - 1) ∧
      minInt (s.position + 1) ((s.fields.length : Int) - 1) ≤ (s.fields.length : Int) - 1
    rw [minInt_eq_min]
    omega
  · show 0 ≤ maxInt (s.position - 1) 0 ∧ maxInt (s.position - 1) 0 ≤ (s.fields.length : Int) - 1
    rw [maxInt_eq_max]
    omega

/-- A sequence of focus commands keeps the field list and an in-range focus. -/
theorem runNav_inRange (cmds : List NavCmd) (s : Tui)
    (h0 : 0 ≤ s.position) (h1 : s.position ≤ (s.fields.length : Int) - 1) :
    (runNav s cmds).fields = s.fields ∧ 0 ≤ (runNav s cmds).position ∧
      (runNav s cmds).position ≤ (s.fields.length : Int) - 1 := by
  induction cmds generalizing s with
  | nil => exact ⟨rfl, h0, h1⟩
  | cons c cs ih =>
    have hstep := applyNav_position_inRange s c h0 h1
    have hf := applyNav_fields s c
    have hrec := ih (applyNav s c) hstep.1 hstep.2
    rw [hf] at hrec
    exact hrec

/-- C1: in a form whose focus index is within [0, length-1] (so it has at
least one field), after any finite sequence of NextPosition / PrevPosition
calls the field list is the same, the focus index is still within
[0, length-1], and the focus does not wrap: in the state reached, NextPosition
on the last field and PrevPosition on the first field change nothing. -/
theorem focus_stays_in_range_and_never_wraps (s : Tui) (cmds : List NavCmd)
    (h0 : 0 ≤ s.position) (h1 : s.position ≤ (s.fields.length : Int) - 1) :
    (runNav s cmds).fields = s.fields ∧
    0 ≤ (runNav s cmds).position ∧
    (runNav s cmds).position ≤ (s.fields.length : Int) - 1 ∧
    ((runNav s cmds).position = (s.fields.length : Int) - 1 →
      NextPosition (runNav s cmds) = runNav s cmds) ∧
    ((runNav s cmds).position = 0 → PrevPosition (runNav s cmds) = runNav s cmds) := by
  obtain ⟨hf, hp0, hp1⟩ := runNav_inRange cmds s h0 h1
  refine ⟨hf, hp0, hp1, ?_, ?_⟩
  · intro hlast
    have hmin : minInt ((runNav s cmds).position + 1) (((runNav s cmds).fields.length : Int) - 1)
        = (runNav s cmds).position := by
      rw [minInt_eq_min, hf]
      omega
    unfold NextPosition
    rw [hmin]
  · intro hfirst
    have hmax : maxInt ((runNav s cmds).position - 1) 0 = (runNav s cmds).position := by
      rw [maxInt_eq_max]
      omega
    unfold PrevPosition
    rw [hmax]

/-- C1 at the sample form (three fields, focus on the last) and the commands
next, next, prev, prev, prev, prev, next. -/
theorem focus_stays_in_range_and_never_wraps_witness :
    (0 ≤ sampleTui.position ∧ sampleTui.position ≤ (sampleTui.fields.length : Int) - 1) ∧
    ((runNav sampleTui [NavCmd.next, NavCmd.next, NavCmd.prev, NavCmd.prev, NavCmd.prev,
        NavCmd.prev, NavCmd.next]).fields = sampleTui.fields ∧
      0 ≤ (runNav sampleTui [NavCmd.next, NavCmd.next, NavCmd.prev, NavCmd.prev, NavCmd.prev,
        NavCmd.prev, NavCmd.next]).position ∧
      (runNav sampleTui [NavCmd.next, NavCmd.next, NavCmd.prev, NavCmd.prev, NavCmd.prev,
        NavCmd.prev, NavCmd.next]).position ≤ (sampleTui.fields.length : Int) - 1 ∧
      ((runNav sampleTui [NavCmd.next, NavCmd.next, NavCmd.prev, NavCmd.prev, NavCmd.prev,
        NavCmd.prev, NavCmd.next]).position = (sampleTui.fields.length : Int) - 1 →
        NextPosition (runNav sampleTui [NavCmd.next, NavCmd.next, NavCmd.prev, NavCmd.prev,
          NavCmd.prev, NavCmd.prev, NavCmd.next]) =
        runNav sampleTui [NavCmd.next, NavCmd.next, NavCmd.prev, NavCmd.prev, NavCmd.prev,
          NavCmd.prev, NavCmd.next]) ∧
      ((runNav sampleTui [NavCmd.next, NavCmd.next, NavCmd.prev, NavCmd.prev, NavCmd.prev,
        NavCmd.prev, NavCmd.next]).position = 0 →
        PrevPosition (runNav sampleTui [NavCmd.next, NavCmd.next, NavCmd.prev, NavCmd.prev,
          NavCmd.prev, NavCmd.prev, NavCmd.next]) =
        runNav sampleTui [NavCmd.next, NavCmd.next, NavCmd.prev, NavCmd.prev, NavCmd.prev,
          NavCmd.prev, NavCmd.next])) :=
  ⟨by decide,
   focus_stays_in_range_and_never_wraps sampleTui
    [NavCmd.next, NavCmd.next, NavCmd.prev, NavCmd.prev, NavCmd.prev, NavCmd.prev, NavCmd.next]
    (by decide) (by decide)⟩

/-! ## The initial focus -/

/-- What the loop of `getFields` computes for a last-used record `l`: the
labels are appended in list order; with no session of that name the index is
left alone; with one, the index is that of a session (counted from `i`) whose
name is the last-used session name. -/
theorem getFieldsLoop_some (l : LastSession) (sessions : List Session) :
    ∀ (i : Int) (names : List String) (idx : Int),
      (getFieldsLoop (some l) sessions i (names, idx)).1 = names ++ sessions.map Session.Name ∧
      ((∀ s ∈ sessions, s.Name ≠ l.SessionName) →
        (getFieldsLoop (some l) sessions i (names, idx)).2 = idx) ∧
      ((∃ s ∈ sessions, s.Name = l.SessionName) →
        i ≤ (getFieldsLoop (some l) sessions i (names, idx)).2 ∧
        (getFieldsLoop (some l) sessions i (names, idx)).2 < i + (sessions.length : Int) ∧
        (sessions.map Session.Name)[((getFieldsLoop (some l) sessions i (names, idx)).2 - i).toNat]?
          = some l.SessionName) := by
  induction sessions with
  | nil =>
    intro i names idx
    simp [getFieldsLoop]
  | cons s rest ih =>
    intro i names idx
    simp only [getFieldsLoop]
    obtain ⟨ih1, ih2, ih3⟩ := ih (i + 1) (names ++ [s.Name])
      (if l.SessionName = s.Name then i else idx)
    refine ⟨by simp [ih1], ?_, ?_⟩
    · intro hno
      have hs : ¬ l.SessionName = s.Name := fun h => hno s (List.mem_cons_self _ _) h.symm
      rw [ih2 (fun t ht => hno t (List.mem_cons_of_mem _ ht))]
      simp [hs]
    · intro hex
      by_cases hrest : ∃ t ∈ rest, t.Name = l.SessionName
      · obtain ⟨h1, h2, h3⟩ := ih3 hrest
        refine ⟨by omega, by simp only [List.length_cons]; push_cast; omega, ?_⟩
        have hidx : ((getFieldsLoop (some l) rest (i + 1)
            (names ++ [s.Name], if l.SessionName = s.Name then i else idx)).2 - i).toNat
            = ((getFieldsLoop (some l) rest (i + 1)
            (names ++ [s.Name], if l.SessionName = s.Name then i else idx)).2 - (i + 1)).toNat + 1 := by
          omega
        rw [hidx]
        simpa using h3
      · have hno : ∀ t ∈ rest, t.Name ≠ l.SessionName := fun t ht h => hrest ⟨t, ht, h⟩
        have hs : l.SessionName = s.Name := by
          obtain ⟨t, ht, hname⟩ := hex
          rcases List.mem_cons.mp ht with h | h
          · rw [← h]; exact hname.symm
          · exact absurd hname (hno t h)
        rw [ih2 hno]
        simp [hs]

/-- Without a last-used record the loop of `getFields` only collects the
labels. -/
theorem getFieldsLoop_none (sessions : List Session) :
    ∀ (i : Int) (names : List String) (idx : Int),
      getFieldsLoop none sessions i (names, idx) = (names ++ sessions.map Session.Name, idx) := by
  induction sessions with
  | nil => intro i names idx; simp [getFieldsLoop]
  | cons s rest ih => intro i names idx; simp [getFieldsLoop, ih]

/-- The focus index `getFields` leaves when there is a last-used record. -/
theorem getFields_position_some (self : Tui) (l : LastSession)
    (h : self.config.LastSession = some l) : (getFields self).1.position = 2 := by
  simp [getFields, h]

/-- `getFields` changes nothing of the UI value but the focus index. -/
theorem getFields_config (self : Tui) : (getFields self).1.config = self.config := by
  simp [getFields]

/-- `getFields` always returns three fields, the last one a fresh masked
password input. -/
theorem getFields_shape (self : Tui) :
    ∃ f0 f1, (getFields self).2 = [f0, f1, field.ofInput (newInput "password" true)] := by
  exact ⟨_, _, rfl⟩

/-- C2, amended: for every configuration whose last-used record names a
session that is present in the session list (together with a last-used user),
`getFields` does find the session (the index it found is not -1, so the
assignment of focus 1 is made), and the form built by `New`, and again by
`reset`, has its initial focus on index 2, which holds the password field. -/
theorem initial_focus_is_password_field (config : Config) (l : LastSession)
    (lines cols : Int) (state : Nat) (w : World)
    (hlast : config.LastSession = some l)
    (hpresent : ∃ s ∈ config.Sessions, s.Name = l.SessionName)
    (hw : w.ui.config = config) :
    (getFieldsLoop config.LastSession config.Sessions 0 ([], -1)).2 > -1 ∧
    (New config lines cols state).position = 2 ∧
    goIndex (New config lines cols state).fields 2
      = some (field.ofInput (newInput "password" true)) ∧
    (reset w).ui.position = 2 ∧
    goIndex (reset w).ui.fields 2 = some (field.ofInput (newInput "password" true)) := by
  refine ⟨?_, ?_, ?_, ?_, ?_⟩
  · rw [hlast]
    have h := ((getFieldsLoop_some l config.Sessions 0 [] (-1)).2.2 hpresent).1
    omega
  · simp [New, getFields, hlast]
  · simp [New, getFields, goIndex]
  · simp [reset, getFields, hw, hlast]
  · simp [reset, getFields, goIndex]

/-- C2 at the spec's scenario: sessions "gnome" and "sway", last session
"sway", last user "alice". -/
theorem initial_focus_is_password_field_witness :
    (sampleConfig.LastSession = some { SessionName := "sway", User := "alice" } ∧
      (∃ s ∈ sampleConfig.Sessions, s.Name = "sway") ∧
      sampleTui.config = sampleConfig) ∧
    ((getFieldsLoop sampleConfig.LastSession sampleConfig.Sessions 0 ([], -1)).2 > -1 ∧
      (New sampleConfig 24 80 7).position = 2 ∧
      goIndex (New sampleConfig 24 80 7).fields 2
        = some (field.ofInput (newInput "password" true)) ∧
      (reset { ui := sampleTui, log := [] }).ui.position = 2 ∧
      goIndex (reset { ui := sampleTui, log := [] }).ui.fields 2
        = some (field.ofInput (newInput "password" true))) :=
  ⟨by decide,
   initial_focus_is_password_field sampleConfig { SessionName := "sway", User := "alice" }
    24 80 7 { ui := sampleTui, log := [] } (by decide) (by decide) (by decide)⟩

/-- C2 as stated fails: in the spec's scenario (sessions "gnome" and "sway",
last session "sway", last user "alice") the form built by `New`, and by
`reset`, has its focus on index 2, not on index 1. -/
theorem initial_focus_is_not_username_field :
    sampleConfig.Sessions.map Session.Name = ["gnome", "sway"] ∧
    sampleConfig.LastSession = some { SessionName := "sway", User := "alice" } ∧
    (New sampleConfig 24 80 7).position = 2 ∧
    (New sampleConfig 24 80 7).position ≠ 1 ∧
    (reset { ui := New sampleConfig 24 80 7, log := [] }).ui.position = 2 ∧
    (reset { ui := New sampleConfig 24 80 7, log := [] }).ui.position ≠ 1 := by
  decide

/-! ## The login attempt -/

/-- The first three fields are read by index. -/
theorem goIndex_three {α : Type} (f0 f1 f2 : α) (rest : List α) :
    goIndex (f0 :: f1 :: f2 :: rest) 0 = some f0 ∧
    goIndex (f0 :: f1 :: f2 :: rest) 1 = some f1 ∧
    goIndex (f0 :: f1 :: f2 :: rest) 2 = some f2 := by
  simp [goIndex]

/-- What `login` does when the authenticator reports a failure `d`. -/
theorem login_of_failure (env : Env) (w : World) (f0 f1 f2 : field) (rest : List field)
    (d : String) (hf : w.ui.fields = f0 :: f1 :: f2 :: rest)
    (hauth : env.authenticate (w.log ++ [Effect.restore w.ui.oldState])
      (env.getContents f1) (env.getContents f2)
      (findSession w.ui.config.Sessions (env.getContents f0)) = some d) :
    login env w = Step.running
      { ui := { w.ui with
                shouldBeRedrawn := true
                fields := f0 :: f1 :: field.ofInput (newInput "password" true) :: rest
                message := d }
        log := w.log ++ [Effect.restore w.ui.oldState,
          Effect.authenticate (env.getContents f1) (env.getContents f2)
            (findSession w.ui.config.Sessions (env.getContents f0)),
          Effect.makeRaw] } := by
  simp [login, goIndex, hf, hauth, failedPasswordReset, goAssign]

/-- What `login` does when the authenticator reports success. -/
theorem login_of_success (env : Env) (w : World) (f0 f1 f2 : field) (rest : List field)
    (hf : w.ui.fields = f0 :: f1 :: f2 :: rest)
    (hauth : env.authenticate (w.log ++ [Effect.restore w.ui.oldState])
      (env.getContents f1) (env.getContents f2)
      (findSession w.ui.config.Sessions (env.getContents f0)) = none) :
    login env w = Step.running
      { ui := { (reset { ui := { w.ui with shouldBeRedrawn := true }
                         log := w.log ++ [Effect.restore w.ui.oldState,
                           Effect.authenticate (env.getContents f1) (env.getContents f2)
                             (findSession w.ui.config.Sessions (env.getContents f0))] }).ui with
                message := "Success!"
                loggedIn := true }
        log := w.log ++ [Effect.restore w.ui.oldState,
          Effect.authenticate (env.getContents f1) (env.getContents f2)
            (findSession w.ui.config.Sessions (env.getContents f0)),
          Effect.makeRaw] } := by
  simp [login, goIndex, hf, hauth, reset]

/-- With fewer than three fields `login` panics on one of its index reads,
before any terminal effect and before the authenticator is called. -/
theorem login_panics_of_short (env : Env) (w : World) (h : w.ui.fields.length < 3) :
    login env w = Step.panicked { w with ui := { w.ui with shouldBeRedrawn := true } } := by
  match hf : w.ui.fields, h with
  | [], _ => simp [login, goIndex, hf]
  | [_], _ => simp [login, goIndex, hf]
  | [_, _], _ => simp [login, goIndex, hf]
  | _ :: _ :: _ :: _, h => simp at h; omega

/-- The focus index `getFields` leaves is 2, or 1, or the one it was given. -/
theorem getFields_position_cases (self : Tui) :
    (getFields self).1.position = 2 ∨ (getFields self).1.position = 1 ∨
      (getFields self).1.position = self.position := by
  unfold getFields
  cases self.config.LastSession with
  | some l => left; rfl
  | none =>
    by_cases hidx : (getFieldsLoop none self.config.Sessions 0 ([], -1)).2 > -1
    · right; left; simp [hidx]
    · right; right; simp [hidx]

/-- C3: for every form state with (at least) the three fields of the form, a
login attempt whose authenticator returns a failure returns normally and
resets only the password field: field 2 becomes a fresh password input (empty
buffer, masked), while field 0 (the session picker), field 1 (the username
field) and any further field are exactly what they were before the attempt. -/
theorem login_failure_resets_only_password (env : Env) (w : World)
    (f0 f1 f2 : field) (rest : List field) (d : String)
    (hf : w.ui.fields = f0 :: f1 :: f2 :: rest)
    (hauth : env.authenticate (w.log ++ [Effect.restore w.ui.oldState])
      (env.getContents f1) (env.getContents f2)
      (findSession w.ui.config.Sessions (env.getContents f0)) = some d) :
    ∃ w', login env w = Step.running w' ∧
      w'.ui.fields = f0 :: f1 :: field.ofInput (newInput "password" true) :: rest ∧
      goIndex w'.ui.fields 0 = goIndex w.ui.fields 0 ∧
      goIndex w'.ui.fields 1 = goIndex w.ui.fields 1 ∧
      goIndex w'.ui.fields 2
        = some (field.ofInput { title := "password", masked := true, contents := "" }) := by
  refine ⟨_, login_of_failure env w f0 f1 f2 rest d hf hauth, rfl, ?_, ?_, ?_⟩
  · rw [hf]; simp [goIndex]
  · rw [hf]; simp [goIndex]
  · simp [goIndex, newInput]

/-- C3 at the sample form: the password field is empty, so the sample
authenticator fails with "bad password". -/
theorem login_failure_resets_only_password_witness :
    (sampleWorld.ui.fields = samplePickerField :: sampleUserField :: sampleEmptyPasswordField :: [] ∧
      sampleEnv.authenticate (sampleWorld.log ++ [Effect.restore sampleWorld.ui.oldState])
        (sampleEnv.getContents sampleUserField) (sampleEnv.getContents sampleEmptyPasswordField)
        (findSession sampleWorld.ui.config.Sessions (sampleEnv.getContents samplePickerField))
        = some "bad password") ∧
    (∃ w', login sampleEnv sampleWorld = Step.running w' ∧
      w'.ui.fields = samplePickerField :: sampleUserField ::
        field.ofInput (newInput "password" true) :: [] ∧
      goIndex w'.ui.fields 0 = goIndex sampleWorld.ui.fields 0 ∧
      goIndex w'.ui.fields 1 = goIndex sampleWorld.ui.fields 1 ∧
      goIndex w'.ui.fields 2
        = some (field.ofInput { title := "password", masked := true, contents := "" })) :=
  ⟨by decide,
   login_failure_resets_only_password sampleEnv sampleWorld samplePickerField sampleUserField
    sampleEmptyPasswordField [] "bad password" (by decide) (by decide)⟩

/-! ## Key handling -/

/-- C7: for every form state, handling the Enter key sequence [13] when the
focus is not on the last field yields exactly the state NextPosition yields,
with the effect log untouched (no authenticator call); when the focus is on the
last field (focus = length - 1) the result is that of the login attempt, and
the focus is not advanced: whenever the login attempt returns, the focus index
is not larger than before. -/
theorem enter_advances_or_attempts_login (env : Env) (w : World) :
    (w.ui.position ≠ (w.ui.fields.length : Int) - 1 →
      handleInput env w [13] = Step.running { ui := NextPosition w.ui, log := w.log }) ∧
    (w.ui.position = (w.ui.fields.length : Int) - 1 →
      handleInput env w [13] = login env w ∧
      ∀ w', login env w = Step.running w' → w'.ui.position ≤ w.ui.position) := by
  constructor
  · intro hne
    simp [handleInput, onLastPosition, hne]
  · intro hlast
    refine ⟨by simp [handleInput, onLastPosition, hlast], ?_⟩
    intro w' hrun
    match hf : w.ui.fields with
    | f0 :: f1 :: f2 :: rest =>
      have hpos : 2 ≤ w.ui.position := by
        rw [hlast, hf]; simp only [List.length_cons]; push_cast; omega
      cases hauth : env.authenticate (w.log ++ [Effect.restore w.ui.oldState])
          (env.getContents f1) (env.getContents f2)
          (findSession w.ui.config.Sessions (env.getContents f0)) with
      | some d =>
        rw [login_of_failure env w f0 f1 f2 rest d hf hauth] at hrun
        injection hrun with hw
        rw [← hw]
      | none =>
        rw [login_of_success env w f0 f1 f2 rest hf hauth] at hrun
        injection hrun with hw
        rw [← hw]
        have hc := getFields_position_cases
          { w.ui with shouldBeRedrawn := true, loggedIn := false, position := 0 }
        simp only [reset]
        rcases hc with h | h | h
        · show (getFields _).1.position ≤ _; rw [h]; exact hpos
        · show (getFields _).1.position ≤ _; rw [h]; omega
        · show (getFields _).1.position ≤ _; rw [h]; show (0 : Int) ≤ _; omega
    | [] => rw [login_panics_of_short env w (by rw [hf]; simp)] at hrun; cases hrun
    | [_] => rw [login_panics_of_short env w (by rw [hf]; simp)] at hrun; cases hrun
    | [_, _] => rw [login_panics_of_short env w (by rw [hf]; simp)] at hrun; cases hrun

/-- C7 evaluated on the sample form: with the focus on the username field
Enter is NextPosition, with the focus on the password field it is the login
attempt. -/
theorem enter_advances_or_attempts_login_witness :
    (sampleEditingWorld.ui.position ≠ (sampleEditingWorld.ui.fields.length : Int) - 1 ∧
      sampleWorld.ui.position = (sampleWorld.ui.fields.length : Int) - 1) ∧
    handleInput sampleEnv sampleEditingWorld [13]
      = Step.running { ui := NextPosition sampleEditingWorld.ui, log := sampleEditingWorld.log } ∧
    handleInput sampleEnv sampleWorld [13] = login sampleEnv sampleWorld :=
  ⟨by decide,
   (enter_advances_or_attempts_login sampleEnv sampleEditingWorld).1 (by decide),
   ((enter_advances_or_attempts_login sampleEnv sampleWorld).2 (by decide)).1⟩

/-- C8, amended: for every UI state, handling the control-C key sequence [3]
ends the process with exit status 1 and does nothing else: the UI value is
untouched and the only effect `handleInput` produces is the exit, with no
restore of the saved terminal state before it. -/
theorem control_c_exits_without_restore (env : Env) (w : World) :
    handleInput env w [3] = Step.exited 1 { ui := w.ui, log := w.log ++ [Effect.exit 1] } ∧
    restoredBeforeExit w.ui.oldState [Effect.exit 1] = false := by
  constructor
  · simp [handleInput]
  · rfl

/-- C8 as stated fails: with the sample form in raw mode and the focus on the
username field, control-C exits with status 1 and the effects `handleInput`
produces are the exit alone, so no restore of the saved terminal state (token
7) comes before the exit; the same holds for the whole run of `Start` over the
keys up-arrow, control-C, whose log holds no restore at all. -/
theorem control_c_restore_missing :
    sampleEditingWorld.ui.position = 1 ∧
    sampleEditingWorld.ui.oldState = 7 ∧
    sampleEditingWorld.log = [Effect.makeRaw, Effect.redraw, Effect.readKey, Effect.redraw,
      Effect.readKey] ∧
    handleInput sampleEnv sampleEditingWorld [3]
      = Step.exited 1 { ui := sampleEditingWorld.ui
                        log := sampleEditingWorld.log ++ [Effect.exit 1] } ∧
    restoredBeforeExit 7 [Effect.exit 1] = false ∧
    Start sampleEnv [ReadResult.key [27, 91, 65], ReadResult.key [3]] { ui := sampleTui, log := [] }
      = StartResult.exited 1
          { ui := sampleEditingWorld.ui
            log := sampleEditingWorld.log ++ [Effect.exit 1] } [] ∧
    restoredBeforeExit 7 (sampleEditingWorld.log ++ [Effect.exit 1]) = false := by
  decide

/-! ## The end of the loop of `Start` -/

/-- C9: for every form state (with the three fields of the form), a login
attempt whose authenticator returns success returns with the loggedIn flag
true and the status message "Success!"; the last effect of the attempt is the
re-entry of raw mode.  When that attempt was started by the Enter key on the
last field inside the loop of `Start`, the loop ends with exactly that state:
nothing is drawn and no key is read after the attempt, and the rest of the key
supply is left unread. -/
theorem successful_login_ends_start_loop (env : Env) (w : World)
    (f0 f1 f2 : field) (rest : List field)
    (hf : w.ui.fields = f0 :: f1 :: f2 :: rest)
    (hauth : env.authenticate (w.log ++ [Effect.restore w.ui.oldState])
      (env.getContents f1) (env.getContents f2)
      (findSession w.ui.config.Sessions (env.getContents f0)) = none) :
    ∃ w', login env w = Step.running w' ∧
      w'.ui.loggedIn = true ∧
      w'.ui.message = "Success!" ∧
      w'.log = w.log ++ [Effect.restore w.ui.oldState,
        Effect.authenticate (env.getContents f1) (env.getContents f2)
          (findSession w.ui.config.Sessions (env.getContents f0)),
        Effect.makeRaw] ∧
      (w.ui.position = (w.ui.fields.length : Int) - 1 →
        ∀ (before : World) (more : List ReadResult),
          w = { ui := before.ui, log := before.log ++ [Effect.readKey] } →
          startLoop env (ReadResult.key [13] :: more) before = StartResult.returned w' more) := by
  refine ⟨_, login_of_success env w f0 f1 f2 rest hf hauth, rfl, rfl, rfl, ?_⟩
  intro hlast before more hw
  have hkey : handleInput env w [13] = login env w := by
    simp [handleInput, onLastPosition, hlast]
  simp only [startLoop]
  rw [← hw, hkey, login_of_success env w f0 f1 f2 rest hf hauth]
  simp

/-- C9 at the sample form with the accepted password typed: the Enter key is
read, the login succeeds, and the loop returns leaving the next key unread. -/
theorem successful_login_ends_start_loop_witness :
    (sampleTypedWorld.ui.fields
        = samplePickerField :: sampleUserField :: sampleTypedPasswordField :: [] ∧
      sampleEnv.authenticate
        (sampleTypedWorld.log ++ [Effect.readKey] ++ [Effect.restore sampleTypedWorld.ui.oldState])
        (sampleEnv.getContents sampleUserField) (sampleEnv.getContents sampleTypedPasswordField)
        (findSession sampleTypedWorld.ui.config.Sessions (sampleEnv.getContents samplePickerField))
        = none) ∧
    (∃ w', login sampleEnv
          { ui := sampleTypedWorld.ui, log := sampleTypedWorld.log ++ [Effect.readKey] }
        = Step.running w' ∧
      w'.ui.loggedIn = true ∧
      w'.ui.message = "Success!" ∧
      w'.log = sampleTypedWorld.log ++ [Effect.readKey] ++ [Effect.restore 7,
        Effect.authenticate "alice" "hunter2" { Name := "sway", Exec := "sway" },
        Effect.makeRaw] ∧
      startLoop sampleEnv [ReadResult.key [13], ReadResult.key [104]] sampleTypedWorld
        = StartResult.returned w' [ReadResult.key [104]]) := by
  refine ⟨by decide, ?_⟩
  obtain ⟨w', h1, h2, h3, h4, h5⟩ := successful_login_ends_start_loop sampleEnv
    { ui := sampleTypedWorld.ui, log := sampleTypedWorld.log ++ [Effect.readKey] }
    samplePickerField sampleUserField sampleTypedPasswordField [] (by decide) (by decide)
  exact ⟨w', h1, h2, h3, h4, h5 (by decide) sampleTypedWorld [ReadResult.key [104]] rfl⟩

/-! ## The banner -/

/-- C4 at a failing input: for the art "aaaa" / "ééé" (second line 3
characters in 6 bytes) `newAscii` records the width 3, although the first line
is 4 characters wide; the recorded height 2 is the number of lines. -/
theorem newAscii_width_below_widest_line :
    splitLines "aaaa\nééé" = ["aaaa", "ééé"] ∧
    newAscii "aaaa\nééé" = some { strLines := ["aaaa", "ééé"], lines := 2, cols := 3 } ∧
    runeCount "aaaa" = 4 ∧ runeCount "ééé" = 3 ∧ goLen "ééé" = 6 ∧
    specWidth (splitLines "aaaa\nééé") = 4 := by
  decide

/-- C5 at a failing input: for the art "a" / "bbbbbbbbbb" (width 10) on a
terminal of 24 rows and 2 columns, `draw` prints its 11 blank rows and then
panics on the first banner row: the slice of "a" it asks for is [4:1]. -/
theorem draw_panics_on_short_line :
    newAscii "a\nbbbbbbbbbb" = some { strLines := ["a", "bbbbbbbbbb"], lines := 2, cols := 10 } ∧
    asciiArt.draw { strLines := ["a", "bbbbbbbbbb"], lines := 2, cols := 10 }
        { Lines := 24, Cols := 2 }
      = DrawResult.panic (List.replicate 11 Printed.blank) ∧
    maxInt ((10 - 2 : Int).tdiv 2) 0 = 4 ∧
    minInt (2 + 4) (goLen "a") = 1 ∧
    goSlice "a" 4 1 = none := by
  decide

/-- C6 at a failing input: for the art of ten "a" over six "é" (12 bytes),
`newAscii` records the width 6; on a terminal of 4 rows and 10 columns `draw`
indents every row by 2 spaces and then prints 10 bytes of it, so the first
row, all of it single-byte characters, takes 12 columns. -/
theorem draw_row_wider_than_terminal :
    newAscii "aaaaaaaaaa\néééééé"
      = some { strLines := ["aaaaaaaaaa", "éééééé"], lines := 2, cols := 6 } ∧
    asciiArt.draw { strLines := ["aaaaaaaaaa", "éééééé"], lines := 2, cols := 6 }
        { Lines := 4, Cols := 10 }
      = DrawResult.done [Printed.blank,
          Printed.row 2 (goBytes "aaaaaaaaaa"),
          Printed.row 2 ((goBytes "éééééé").take 10)] ∧
    (goBytes "aaaaaaaaaa").length = 10 ∧
    rowSizes (asciiArt.draw { strLines := ["aaaaaaaaaa", "éééééé"], lines := 2, cols := 6 }
        { Lines := 4, Cols := 10 }).out = [(2, 10), (2, 10)] ∧
    ¬ ((2 : Int) + 10 ≤ 10) := by
  decide

/-! ## A terminal at least as large as the banner -/

/-- Go's truncating division by 2 of a value that is not positive is not
positive. -/
theorem tdiv_two_nonpos (a : Int) (h : a ≤ 0) : a.tdiv 2 ≤ 0 := by
  have hneg : a = -(-a) := by omega
  have hpos : 0 ≤ (-a).tdiv 2 := Int.tdiv_nonneg (by omega) (by decide)
  rw [hneg, Int.neg_tdiv]
  omega

/-- Go's truncating division by 2 of a value that is not negative is the
floor of the half. -/
theorem tdiv_two_of_nonneg (a : Int) (h : 0 ≤ a) : a.tdiv 2 = a / 2 :=
  Int.tdiv_eq_ediv h (by decide)

/-- The loop of `newAscii` keeps the running width non-negative. -/
theorem foldl_longestStep_nonneg (rest : List String) :
    ∀ (start : Int), 0 ≤ start → 0 ≤ rest.foldl longestStep start := by
  induction rest with
  | nil => intro start h; exact h
  | cons line rest ih =>
    intro start h
    apply ih
    unfold longestStep
    split
    · exact Int.natCast_nonneg _
    · exact h

/-- A banner built by `newAscii` holds the lines of the art, its height is
the number of those lines and its width is not negative. -/
theorem newAscii_wellformed (art : String) (self : asciiArt) (h : newAscii art = some self) :
    self.strLines = splitLines art ∧ self.lines = (self.strLines.length : Int) ∧
      0 ≤ self.cols := by
  unfold newAscii at h
  cases hs : splitLines art with
  | nil => simp [hs] at h
  | cons first rest =>
    simp only [hs, Option.some.injEq] at h
    subst h
    exact ⟨rfl, rfl, foldl_longestStep_nonneg rest _ (Int.natCast_nonneg _)⟩

/-- The slice `line[0:minInt(cols, len(line))]` of a line is in bounds when
`cols` is not negative: it is the line's first bytes. -/
theorem goSlice_from_zero (line : String) (cols : Int) (h : 0 ≤ cols) :
    goSlice line 0 (minInt cols (goLen line))
      = some ((goBytes line).take (min cols (goLen line)).toNat) := by
  have hlen : 0 ≤ goLen line := Int.natCast_nonneg _
  unfold goSlice
  rw [minInt_eq_min]
  have hcond : (0 : Int) ≤ 0 ∧ 0 ≤ min cols (goLen line) ∧ min cols (goLen line) ≤ goLen line := by
    omega
  rw [if_pos hcond]
  simp

/-- The row loop of `draw` when nothing is skipped and the terminal has at
least as many rows as the banner: from counter `i` on it prints one row for
each remaining line and returns, given a budget above the number of remaining
lines. -/
theorem drawLoop_no_skip (self : asciiArt) (termSize : TermSize) (startCol : Int)
    (hlines : self.lines = (self.strLines.length : Int))
    (hrows : self.lines ≤ termSize.Lines) (hcols : 0 ≤ termSize.Cols) :
    ∀ (fuel i : Nat) (out : List Printed), i ≤ self.strLines.length →
      self.strLines.length - i < fuel →
      drawLoop self termSize 0 0 startCol fuel i out
        = DrawResult.done (out ++ (self.strLines.drop i).map (fun line =>
            Printed.row startCol ((goBytes line).take (min termSize.Cols (goLen line)).toNat))) := by
  intro fuel
  induction fuel with
  | zero => intro i out _ hfuel; omega
  | succ fuel ih =>
    intro i out hi hfuel
    unfold drawLoop
    by_cases hlt : i < self.strLines.length
    · have hcond : (i : Int) < termSize.Lines ∧ (i : Int) + 0 < self.lines := by omega
      rw [if_pos hcond]
      have hidx : goIndex self.strLines ((i : Int) + 0) = some self.strLines[i] := by
        unfold goIndex
        rw [if_pos (by omega)]
        have hnat : ((i : Int) + 0).toNat = i := by omega
        rw [hnat]
        exact List.getElem?_eq_getElem hlt
      rw [hidx]
      simp only [Int.add_zero]
      rw [goSlice_from_zero _ _ hcols]
      simp only
      rw [ih (i + 1) _ (by omega) (by omega), List.drop_eq_getElem_cons hlt]
      simp only [List.map_cons, List.append_assoc, List.singleton_append]
    · have hi' : i = self.strLines.length := by omega
      have hcond : ¬ ((i : Int) < termSize.Lines ∧ (i : Int) + 0 < self.lines) := by omega
      rw [if_neg hcond, hi']
      simp

/-- C10: for every banner built by `newAscii`, of size (bR lines, bC columns),
and every terminal size (R, C) with R >= bR and C >= bC, `draw` returns
normally; it first prints exactly floor((R - bR)/2) blank rows, then one row
for every line of the banner in order, none skipped (the line skip is 0), each
indented by exactly floor((C - bC)/2) spaces and holding its line from the
first byte on (the column skip is 0), up to C bytes. -/
theorem draw_centres_banner_in_larger_terminal (art : String) (self : asciiArt)
    (termSize : TermSize) (hbanner : newAscii art = some self)
    (hrows : self.lines ≤ termSize.Lines) (hcols : self.cols ≤ termSize.Cols) :
    maxInt ((self.lines - termSize.Lines).tdiv 2) 0 = 0 ∧
    maxInt ((self.cols - termSize.Cols).tdiv 2) 0 = 0 ∧
    self.draw termSize
      = DrawResult.done
          (List.replicate ((termSize.Lines - self.lines) / 2).toNat Printed.blank ++
            self.strLines.map (fun line =>
              Printed.row ((termSize.Cols - self.cols) / 2)
                ((goBytes line).take (min termSize.Cols (goLen line)).toNat))) := by
  obtain ⟨_, hlines, hwidth⟩ := newAscii_wellformed art self hbanner
  have hskipL : maxInt ((self.lines - termSize.Lines).tdiv 2) 0 = 0 := by
    have := tdiv_two_nonpos (self.lines - termSize.Lines) (by omega)
    rw [maxInt_eq_max]; omega
  have hskipC : maxInt ((self.cols - termSize.Cols).tdiv 2) 0 = 0 := by
    have := tdiv_two_nonpos (self.cols - termSize.Cols) (by omega)
    rw [maxInt_eq_max]; omega
  have hstartL : maxInt ((termSize.Lines - self.lines).tdiv 2) 0
      = (termSize.Lines - self.lines) / 2 := by
    rw [tdiv_two_of_nonneg _ (by omega), maxInt_eq_max]; omega
  have hstartC : maxInt ((termSize.Cols - self.cols).tdiv 2) 0
      = (termSize.Cols - self.cols) / 2 := by
    rw [tdiv_two_of_nonneg _ (by omega), maxInt_eq_max]; omega
  refine ⟨hskipL, hskipC, ?_⟩
  unfold asciiArt.draw
  simp only [hskipL, hskipC, hstartL, hstartC]
  rw [drawLoop_no_skip self termSize _ hlines hrows (by omega) _ 0 _ (by omega) (by omega)]
  simp [blankRows]

/-- C10 at the art "ab" / "cde" (2 lines, 3 columns) on a terminal of 7 rows
and 10 columns: 2 blank rows, then both lines indented by 3 spaces. -/
theorem draw_centres_banner_in_larger_terminal_witness :
    (newAscii "ab\ncde" = some { strLines := ["ab", "cde"], lines := 2, cols := 3 } ∧
      (2 : Int) ≤ 7 ∧ (3 : Int) ≤ 10) ∧
    asciiArt.draw { strLines := ["ab", "cde"], lines := 2, cols := 3 } { Lines := 7, Cols := 10 }
      = DrawResult.done [Printed.blank, Printed.blank,
          Printed.row 3 (goBytes "ab"), Printed.row 3 (goBytes "cde")] :=
  ⟨by decide,
   ((draw_centres_banner_in_larger_terminal "ab\ncde"
      { strLines := ["ab", "cde"], lines := 2, cols := 3 } { Lines := 7, Cols := 10 }
      (by decide) (by decide) (by decide)).2.2).trans (by decide)⟩

/-! ## The focus commands, one at a time -/

/-- C11: for every form (in particular one with length >= 1 and the focus
index in range), NextPosition sets the focus to min(focus + 1, length - 1) and
PrevPosition sets the focus to max(focus - 1, 0); neither changes the fields,
the status message or the loggedIn flag (nor any other member of the UI
value). -/
theorem next_prev_position_spec (s : Tui) :
    (NextPosition s).position = min (s.position + 1) ((s.fields.length : Int) - 1) ∧
    (PrevPosition s).position = max (s.position - 1) 0 ∧
    (NextPosition s).fields = s.fields ∧ (PrevPosition s).fields = s.fields ∧
    (NextPosition s).message = s.message ∧ (PrevPosition s).message = s.message ∧
    (NextPosition s).loggedIn = s.loggedIn ∧ (PrevPosition s).loggedIn = s.loggedIn ∧
    NextPosition s = { s with position := min (s.position + 1) ((s.fields.length : Int) - 1) } ∧
    PrevPosition s = { s with position := max (s.position - 1) 0 } := by
  refine ⟨minInt_eq_min _ _, maxInt_eq_max _ _, rfl, rfl, rfl, rfl, rfl, rfl, ?_, ?_⟩
  · unfold NextPosition; rw [minInt_eq_min]
  · unfold PrevPosition; rw [maxInt_eq_max]

/-- C11 on the sample form (three fields, focus 2): NextPosition keeps the
focus at 2, PrevPosition moves it to 1. -/
theorem next_prev_position_spec_witness :
    (NextPosition sampleTui).position = 2 ∧ (PrevPosition sampleTui).position = 1 ∧
    (NextPosition sampleTui).fields = sampleTui.fields ∧
    (PrevPosition sampleTui).message = sampleTui.message :=
  ⟨(next_prev_position_spec sampleTui).1.trans (by decide),
   (next_prev_position_spec sampleTui).2.1.trans (by decide),
   (next_prev_position_spec sampleTui).2.2.1,
   (next_prev_position_spec sampleTui).2.2.2.2.2.1⟩

/-! ## A failed login attempt -/

/-- C12: for every form state with the focus on the last field and the
loggedIn flag false, and every failure the authenticator returns, the login
attempt (also when reached through the Enter key) returns with the status
message equal to the failure's description, the focus index unchanged and
still on the last field, the loggedIn flag still false and the
needs-full-redraw flag true. -/
theorem login_failure_sets_message_keeps_focus (env : Env) (w : World)
    (f0 f1 f2 : field) (rest : List field) (d : String)
    (hf : w.ui.fields = f0 :: f1 :: f2 :: rest)
    (hlast : w.ui.position = (w.ui.fields.length : Int) - 1)
    (hlogged : w.ui.loggedIn = false)
    (hauth : env.authenticate (w.log ++ [Effect.restore w.ui.oldState])
      (env.getContents f1) (env.getContents f2)
      (findSession w.ui.config.Sessions (env.getContents f0)) = some d) :
    ∃ w', login env w = Step.running w' ∧
      handleInput env w [13] = Step.running w' ∧
      w'.ui.message = d ∧
      w'.ui.position = w.ui.position ∧
      w'.ui.position = (w'.ui.fields.length : Int) - 1 ∧
      w'.ui.loggedIn = false ∧
      w'.ui.shouldBeRedrawn = true := by
  have hlogin := login_of_failure env w f0 f1 f2 rest d hf hauth
  refine ⟨_, hlogin, ?_, rfl, rfl, ?_, hlogged, rfl⟩
  · rw [← hlogin]
    simp [handleInput, onLastPosition, hlast]
  · show w.ui.position = _
    rw [hlast, hf]
    simp

/-- C12 at the sample form: the password field is empty, the sample
authenticator answers "bad password". -/
theorem login_failure_sets_message_keeps_focus_witness :
    (sampleWorld.ui.fields = samplePickerField :: sampleUserField :: sampleEmptyPasswordField :: [] ∧
      sampleWorld.ui.position = (sampleWorld.ui.fields.length : Int) - 1 ∧
      sampleWorld.ui.loggedIn = false ∧
      sampleEnv.authenticate (sampleWorld.log ++ [Effect.restore sampleWorld.ui.oldState])
        (sampleEnv.getContents sampleUserField) (sampleEnv.getContents sampleEmptyPasswordField)
        (findSession sampleWorld.ui.config.Sessions (sampleEnv.getContents samplePickerField))
        = some "bad password") ∧
    (∃ w', login sampleEnv sampleWorld = Step.running w' ∧
      handleInput sampleEnv sampleWorld [13] = Step.running w' ∧
      w'.ui.message = "bad password" ∧
      w'.ui.position = sampleWorld.ui.position ∧
      w'.ui.position = (w'.ui.fields.length : Int) - 1 ∧
      w'.ui.loggedIn = false ∧
      w'.ui.shouldBeRedrawn = true) :=
  ⟨by decide,
   login_failure_sets_message_keeps_focus sampleEnv sampleWorld samplePickerField sampleUserField
    sampleEmptyPasswordField [] "bad password" (by decide) (by decide) (by decide) (by decide)⟩

/-! ## What the authenticator is called with -/

/-- The session lookup returns the first session of the list with the given
name. -/
theorem findSession_first (name : String) (pre : List Session) (s : Session)
    (post : List Session) (hname : s.Name = name) (hpre : ∀ t ∈ pre, t.Name ≠ name) :
    findSession (pre ++ s :: post) name = s := by
  induction pre with
  | nil => simp [findSession, hname]
  | cons t pre ih =>
    have ht : ¬ t.Name = name := hpre t (List.mem_cons_self _ _)
    simp only [List.cons_append, findSession, if_neg ht]
    exact ih (fun u hu => hpre u (List.mem_cons_of_mem _ hu))

/-- The session lookup returns the zero value when no session has the given
name. -/
theorem findSession_absent (name : String) (sessions : List Session)
    (h : ∀ t ∈ sessions, t.Name ≠ name) : findSession sessions name = Session.zero := by
  induction sessions with
  | nil => rfl
  | cons t rest ih =>
    have ht : ¬ t.Name = name := h t (List.mem_cons_self _ _)
    simp only [findSession, if_neg ht]
    exact ih (fun u hu => h u (List.mem_cons_of_mem _ hu))

/-- With its three fields in place `login` returns, whatever the authenticator
answers, and the effects it performed are the restore, the authenticator call
and the re-entry of raw mode, in this order. -/
theorem login_returns (env : Env) (w : World) (f0 f1 f2 : field) (rest : List field)
    (hf : w.ui.fields = f0 :: f1 :: f2 :: rest) :
    ∃ w', login env w = Step.running w' ∧
      w'.log = w.log ++ [Effect.restore w.ui.oldState,
        Effect.authenticate (env.getContents f1) (env.getContents f2)
          (findSession w.ui.config.Sessions (env.getContents f0)),
        Effect.makeRaw] ∧
      (∀ d, env.authenticate (w.log ++ [Effect.restore w.ui.oldState])
          (env.getContents f1) (env.getContents f2)
          (findSession w.ui.config.Sessions (env.getContents f0)) = some d →
        w'.ui.message = d ∧ w'.ui.loggedIn = w.ui.loggedIn) ∧
      (env.authenticate (w.log ++ [Effect.restore w.ui.oldState])
          (env.getContents f1) (env.getContents f2)
          (findSession w.ui.config.Sessions (env.getContents f0)) = none →
        w'.ui.message = "Success!" ∧ w'.ui.loggedIn = true) := by
  cases hauth : env.authenticate (w.log ++ [Effect.restore w.ui.oldState])
      (env.getContents f1) (env.getContents f2)
      (findSession w.ui.config.Sessions (env.getContents f0)) with
  | some d =>
    refine ⟨_, login_of_failure env w f0 f1 f2 rest d hf hauth, rfl, ?_, ?_⟩
    · intro d' hd; cases hd; exact ⟨rfl, rfl⟩
    · intro h; cases h
  | none =>
    refine ⟨_, login_of_success env w f0 f1 f2 rest hf hauth, rfl, ?_, ?_⟩
    · intro d' hd; cases hd
    · intro _; exact ⟨rfl, rfl⟩

/-- C14: for every session list and every form state (with the three fields
of the form), the login attempt returns and calls the authenticator with the
text of field 1 as the username, the text of field 2 as the password and the
session the lookup finds for the text of field 0; its answer decides the
outcome.  The lookup gives the first entry of the session list, in list order,
whose name equals that text exactly, and the zero-value descriptor when no entry
has that name, in which case the attempt proceeds all the same. -/
theorem login_authenticates_with_field_texts (env : Env) (w : World)
    (f0 f1 f2 : field) (rest : List field)
    (hf : w.ui.fields = f0 :: f1 :: f2 :: rest) :
    (∃ w', login env w = Step.running w' ∧
      w'.log = w.log ++ [Effect.restore w.ui.oldState,
        Effect.authenticate (env.getContents f1) (env.getContents f2)
          (findSession w.ui.config.Sessions (env.getContents f0)),
        Effect.makeRaw] ∧
      (∀ d, env.authenticate (w.log ++ [Effect.restore w.ui.oldState])
          (env.getContents f1) (env.getContents f2)
          (findSession w.ui.config.Sessions (env.getContents f0)) = some d →
        w'.ui.message = d ∧ w'.ui.loggedIn = w.ui.loggedIn) ∧
      (env.authenticate (w.log ++ [Effect.restore w.ui.oldState])
          (env.getContents f1) (env.getContents f2)
          (findSession w.ui.config.Sessions (env.getContents f0)) = none →
        w'.ui.message = "Success!" ∧ w'.ui.loggedIn = true)) ∧
    (∀ (pre : List Session) (s : Session) (post : List Session),
      w.ui.config.Sessions = pre ++ s :: post → s.Name = env.getContents f0 →
      (∀ t ∈ pre, t.Name ≠ env.getContents f0) →
      findSession w.ui.config.Sessions (env.getContents f0) = s) ∧
    ((∀ t ∈ w.ui.config.Sessions, t.Name ≠ env.getContents f0) →
      findSession w.ui.config.Sessions (env.getContents f0) = Session.zero) := by
  refine ⟨login_returns env w f0 f1 f2 rest hf, ?_, ?_⟩
  · intro pre s post hsplit hname hpre
    rw [hsplit]
    exact findSession_first _ pre s post hname hpre
  · intro habsent
    exact findSession_absent _ _ habsent

/-- C14 at the sample form: the authenticator is called with "alice", the
empty password and the session "sway", the second entry of the list. -/
theorem login_authenticates_with_field_texts_witness :
    sampleWorld.ui.fields = samplePickerField :: sampleUserField :: sampleEmptyPasswordField :: [] ∧
    ∃ w', login sampleEnv sampleWorld = Step.running w' ∧
      w'.log = sampleWorld.log ++ [Effect.restore 7,
        Effect.authenticate "alice" "" { Name := "sway", Exec := "sway" },
        Effect.makeRaw] := by
  refine ⟨by decide, ?_⟩
  obtain ⟨w', h1, h2, _⟩ := (login_authenticates_with_field_texts sampleEnv sampleWorld
    samplePickerField sampleUserField sampleEmptyPasswordField [] (by decide)).1
  exact ⟨w', h1, h2.trans (by decide)⟩

/-- C15: for every login attempt (on a form with its three fields) and every
authenticator, the external effects `login` produces are exactly three, in this
order: the terminal is restored to the saved state, the authenticator is
invoked once, and raw mode is re-entered; this holds for a successful and for a
failed authentication alike. -/
theorem login_effects_in_order (env : Env) (w : World)
    (f0 f1 f2 : field) (rest : List field)
    (hf : w.ui.fields = f0 :: f1 :: f2 :: rest) :
    ∃ w' username password session, login env w = Step.running w' ∧
      w'.log = w.log ++ [Effect.restore w.ui.oldState,
        Effect.authenticate username password session, Effect.makeRaw] := by
  obtain ⟨w', h1, h2, _⟩ := login_returns env w f0 f1 f2 rest hf
  exact ⟨w', _, _, _, h1, h2⟩

/-- C15 at the sample form, once with the empty password (failure) and once
with the accepted password typed (success). -/
theorem login_effects_in_order_witness :
    (sampleWorld.ui.fields = samplePickerField :: sampleUserField :: sampleEmptyPasswordField :: [] ∧
      sampleTypedWorld.ui.fields
        = samplePickerField :: sampleUserField :: sampleTypedPasswordField :: []) ∧
    (∃ w' username password session, login sampleEnv sampleWorld = Step.running w' ∧
      w'.log = sampleWorld.log ++ [Effect.restore sampleWorld.ui.oldState,
        Effect.authenticate username password session, Effect.makeRaw]) ∧
    (∃ w' username password session, login sampleEnv sampleTypedWorld = Step.running w' ∧
      w'.log = sampleTypedWorld.log ++ [Effect.restore sampleTypedWorld.ui.oldState,
        Effect.authenticate username password session, Effect.makeRaw]) :=
  ⟨by decide,
   login_effects_in_order sampleEnv sampleWorld samplePickerField sampleUserField
    sampleEmptyPasswordField [] (by decide),
   login_effects_in_order sampleEnv sampleTypedWorld samplePickerField sampleUserField
    sampleTypedPasswordField [] (by decide)⟩

/-! ## What the form is pre-populated with -/

/-- C16: for every configuration, the form `getFields` builds is a picker, a
username input and a fresh password input; the picker's option labels are the
session names in session-list order.  With a last-used record the username
buffer is the last-used user, and when the last-used session name is the name
of a session of the list the picker's selection is the index of such a session
(the label at the selected index is that name).  Without a last-used record the
username buffer is empty and the picker keeps its default selection. -/
theorem getFields_prepopulates (self : Tui) :
    ∃ (p : picker) (u : input),
      (getFields self).2
        = [field.ofPicker p, field.ofInput u, field.ofInput (newInput "password" true)] ∧
      p.options = self.config.Sessions.map Session.Name ∧
      (∀ l, self.config.LastSession = some l →
        u = { title := "username", masked := false, contents := l.User } ∧
        ((∃ s ∈ self.config.Sessions, s.Name = l.SessionName) →
          0 ≤ p.selected ∧ p.selected < (self.config.Sessions.length : Int) ∧
          goIndex p.options p.selected = some l.SessionName)) ∧
      (self.config.LastSession = none →
        u = newInput "username" false ∧ u.contents = "" ∧
        p = newPicker (self.config.Sessions.map Session.Name) ∧ p.selected = 0) := by
  cases hlast : self.config.LastSession with
  | none =>
    refine ⟨newPicker (self.config.Sessions.map Session.Name), newInput "username" false,
      ?_, rfl, ?_, ?_⟩
    · simp [getFields, hlast, getFieldsLoop_none]
    · intro l hl; cases hl
    · intro _; exact ⟨rfl, rfl, rfl, rfl⟩
  | some l =>
    obtain ⟨hnames, habsent, hpresent⟩ := getFieldsLoop_some l self.config.Sessions 0 [] (-1)
    by_cases hex : ∃ s ∈ self.config.Sessions, s.Name = l.SessionName
    · obtain ⟨h0, h1, h2⟩ := hpresent hex
      refine ⟨{ options := self.config.Sessions.map Session.Name
                selected := (getFieldsLoop (some l) self.config.Sessions 0 ([], -1)).2 },
        { title := "username", masked := false, contents := l.User }, ?_, rfl, ?_, ?_⟩
      · have hgt : (getFieldsLoop (some l) self.config.Sessions 0 ([], -1)).2 > -1 := by omega
        simp [getFields, hlast, hgt, hnames, newPicker, newInput]
      · intro l' hl'
        cases hl'
        refine ⟨rfl, fun _ => ⟨h0, by show (getFieldsLoop _ _ _ _).2 < _; omega, ?_⟩⟩
        unfold goIndex
        rw [if_pos h0]
        simpa using h2
      · intro h; cases h
    · have hno : ∀ s ∈ self.config.Sessions, s.Name ≠ l.SessionName :=
        fun s hs h => hex ⟨s, hs, h⟩
      refine ⟨newPicker (self.config.Sessions.map Session.Name),
        { title := "username", masked := false, contents := l.User }, ?_, rfl, ?_, ?_⟩
      · simp [getFields, hlast, habsent hno, hnames, newPicker, newInput]
      · intro l' hl'
        cases hl'
        exact ⟨rfl, fun h => absurd h hex⟩
      · intro h; cases h

/-- C16 at the spec's scenario (sessions "gnome", "sway"; last session "sway",
last user "alice"): the picker is on index 1, "sway", and the username buffer
is "alice". -/
theorem getFields_prepopulates_witness :
    (getFields sampleTui).2
      = [field.ofPicker { options := ["gnome", "sway"], selected := 1 },
         field.ofInput { title := "username", masked := false, contents := "alice" },
         field.ofInput { title := "password", masked := true, contents := "" }] ∧
    ∃ (p : picker) (u : input),
      (getFields sampleTui).2
        = [field.ofPicker p, field.ofInput u, field.ofInput (newInput "password" true)] ∧
      p.options = sampleTui.config.Sessions.map Session.Name := by
  refine ⟨by decide, ?_⟩
  obtain ⟨p, u, h1, h2, _⟩ := getFields_prepopulates sampleTui
  exact ⟨p, u, h1, h2⟩

/-! ## Key dispatch -/

/-- C17: for every form state, `handleInput` treats the up-arrow sequence
[27,91,65] exactly as PrevPosition and the down-arrow sequence [27,91,66] and
the tab sequence [9] exactly as NextPosition, with no field handler involved
and no effect.  Every sequence that is none of up-arrow, down-arrow, tab,
Enter [13] or control-C [3] is passed unmodified, together with the UI value,
to the handler of the field at the focus index, the call returns normally with
no effect logged, and no other field's handler matters: two collaborator sets
whose handlers agree on the focused field give the same result. -/
theorem handleInput_dispatch (env : Env) (w : World) :
    handleInput env w [27, 91, 65] = Step.running { ui := PrevPosition w.ui, log := w.log } ∧
    handleInput env w [27, 91, 66] = Step.running { ui := NextPosition w.ui, log := w.log } ∧
    handleInput env w [9] = Step.running { ui := NextPosition w.ui, log := w.log } ∧
    (∀ (symbol : List Int) (f : field),
      symbol ≠ [27, 91, 65] → symbol ≠ [27, 91, 66] → symbol ≠ [9] → symbol ≠ [13] →
      symbol ≠ [3] → goIndex w.ui.fields w.ui.position = some f →
      handleInput env w symbol
        = Step.running { ui := env.onInput f w.ui symbol, log := w.log } ∧
      ∀ (other : Env), (∀ ui s, other.onInput f ui s = env.onInput f ui s) →
        handleInput other w symbol = handleInput env w symbol) := by
  refine ⟨by simp [handleInput], by simp [handleInput], by simp [handleInput], ?_⟩
  intro symbol f h1 h2 h3 h4 h5 hfocus
  constructor
  · simp [handleInput, h1, h2, h3, h4, h5, hfocus]
  · intro other hagree
    simp [handleInput, h1, h2, h3, h4, h5, hfocus, hagree]

/-- C17 on the sample form with the focus on the username field: the key "h"
([104]), the empty sequence and an unrecognized escape sequence all go to the
username field's handler. -/
theorem handleInput_dispatch_witness :
    goIndex sampleEditingWorld.ui.fields sampleEditingWorld.ui.position = some sampleUserField ∧
    handleInput sampleEnv sampleEditingWorld [104]
      = Step.running { ui := sampleEnv.onInput sampleUserField sampleEditingWorld.ui [104]
                       log := sampleEditingWorld.log } ∧
    handleInput sampleEnv sampleEditingWorld []
      = Step.running { ui := sampleEnv.onInput sampleUserField sampleEditingWorld.ui []
                       log := sampleEditingWorld.log } ∧
    handleInput sampleEnv sampleEditingWorld [27, 91, 67]
      = Step.running { ui := sampleEnv.onInput sampleUserField sampleEditingWorld.ui [27, 91, 67]
                       log := sampleEditingWorld.log } :=
  ⟨by decide,
   ((handleInput_dispatch sampleEnv sampleEditingWorld).2.2.2 [104] sampleUserField
      (by decide) (by decide) (by decide) (by decide) (by decide) (by decide)).1,
   ((handleInput_dispatch sampleEnv sampleEditingWorld).2.2.2 [] sampleUserField
      (by decide) (by decide) (by decide) (by decide) (by decide) (by decide)).1,
   ((handleInput_dispatch sampleEnv sampleEditingWorld).2.2.2 [27, 91, 67] sampleUserField
      (by decide) (by decide) (by decide) (by decide) (by decide) (by decide)).1⟩

/-! ## The initial focus, in general -/

/-- C19: for every configuration, the initial focus index computed by `New`,
and by `reset`, is 2 (the password field) whenever a last-used record is
present, whether or not its session name is in the session list, and 0 (the
session picker) when there is none; it is never 1. -/
theorem initial_focus_is_two_or_zero (config : Config) (lines cols : Int) (state : Nat)
    (w : World) :
    ((∃ l, config.LastSession = some l) → (New config lines cols state).position = 2) ∧
    (config.LastSession = none → (New config lines cols state).position = 0) ∧
    (New config lines cols state).position ≠ 1 ∧
    ((∃ l, w.ui.config.LastSession = some l) → (reset w).ui.position = 2) ∧
    (w.ui.config.LastSession = none → (reset w).ui.position = 0) ∧
    (reset w).ui.position ≠ 1 := by
  have hnew_some : ∀ l, config.LastSession = some l → (New config lines cols state).position = 2 := by
    intro l hl; simp [New, getFields, hl]
  have hnew_none : config.LastSession = none → (New config lines cols state).position = 0 := by
    intro hl; simp [New, getFields, hl, getFieldsLoop_none]
  have hreset_some : ∀ l, w.ui.config.LastSession = some l → (reset w).ui.position = 2 := by
    intro l hl; simp [reset, getFields, hl]
  have hreset_none : w.ui.config.LastSession = none → (reset w).ui.position = 0 := by
    intro hl; simp [reset, getFields, hl, getFieldsLoop_none]
  refine ⟨fun ⟨l, hl⟩ => hnew_some l hl, hnew_none, ?_, fun ⟨l, hl⟩ => hreset_some l hl,
    hreset_none, ?_⟩
  · cases hl : config.LastSession with
    | none => rw [hnew_none hl]; decide
    | some l => rw [hnew_some l hl]; decide
  · cases hl : w.ui.config.LastSession with
    | none => rw [hreset_none hl]; decide
    | some l => rw [hreset_some l hl]; decide

/-- C19 evaluated: a last-used record whose session is not in the list still
gives focus 2, and no last-used record gives focus 0, although a session is
listed. -/
theorem initial_focus_is_two_or_zero_witness :
    (New { Sessions := [{ Name := "gnome", Exec := "gnome-session" }]
           LastSession := some { SessionName := "plasma", User := "bob" } } 24 80 7).position = 2 ∧
    (New { Sessions := [{ Name := "gnome", Exec := "gnome-session" }]
           LastSession := none } 24 80 7).position = 0 :=
  ⟨(initial_focus_is_two_or_zero
      { Sessions := [{ Name := "gnome", Exec := "gnome-session" }]
        LastSession := some { SessionName := "plasma", User := "bob" } } 24 80 7 sampleWorld).1
      ⟨_, rfl⟩,
   (initial_focus_is_two_or_zero
      { Sessions := [{ Name := "gnome", Exec := "gnome-session" }]
        LastSession := none } 24 80 7 sampleWorld).2.1 rfl⟩

/-! ## The form invariant over runs of `handleInput` -/

/-- The form `getFields` builds from focus 0 has three fields and leaves the
focus on one of them. -/
theorem getFields_formInRange (self : Tui) (h : self.position = 0) :
    (getFields self).2.length = 3 ∧ 0 ≤ (getFields self).1.position ∧
      (getFields self).1.position ≤ 2 := by
  refine ⟨rfl, ?_⟩
  rcases getFields_position_cases self with hp | hp | hp <;> rw [hp] <;> omega

/-- The state `reset` leaves satisfies the form invariant. -/
theorem reset_formInRange (w : World) : formInRange (reset w).ui := by
  have h := getFields_formInRange { w.ui with loggedIn := false, position := 0 } rfl
  exact h

/-- The state `New` returns satisfies the form invariant. -/
theorem New_formInRange (config : Config) (lines cols : Int) (state : Nat) :
    formInRange (New config lines cols state) := by
  have h := getFields_formInRange
    { config := config, termSize := { Lines := lines, Cols := cols }, position := 0,
      message := "SATA ANDAGI", fields := [], shouldBeRedrawn := true, lastDrawnMessage := "",
      loggedIn := false, oldState := state } rfl
  exact h

/-- A list of length three is its three elements. -/
theorem list_of_length_three {α : Type} (xs : List α) (h : xs.length = 3) :
    ∃ a b c, xs = [a, b, c] := by
  match xs, h with
  | [a, b, c], _ => exact ⟨a, b, c, rfl⟩

/-- One key other than control-C, handled in a state satisfying the form
invariant by field handlers that keep the focus index and the number of
fields, returns in a state satisfying the invariant. -/
theorem handleInput_formInRange (env : Env)
    (honInput : ∀ f ui symbol, (env.onInput f ui symbol).position = ui.position ∧
      (env.onInput f ui symbol).fields.length = ui.fields.length)
    (w : World) (hinv : formInRange w.ui) (symbol : List Int) (hsym : symbol ≠ [3]) :
    ∃ w', handleInput env w symbol = Step.running w' ∧ formInRange w'.ui := by
  obtain ⟨hlen, hp0, hp2⟩ := hinv
  obtain ⟨f0, f1, f2, hf⟩ := list_of_length_three w.ui.fields hlen
  have hprev : formInRange (PrevPosition w.ui) := by
    refine ⟨hlen, ?_, ?_⟩
    · show 0 ≤ maxInt (w.ui.position - 1) 0; rw [maxInt_eq_max]; omega
    · show maxInt (w.ui.position - 1) 0 ≤ 2; rw [maxInt_eq_max]; omega
  have hnext : formInRange (NextPosition w.ui) := by
    refine ⟨hlen, ?_, ?_⟩
    · show 0 ≤ minInt (w.ui.position + 1) ((w.ui.fields.length : Int) - 1)
      rw [minInt_eq_min, hlen]; omega
    · show minInt (w.ui.position + 1) ((w.ui.fields.length : Int) - 1) ≤ 2
      rw [minInt_eq_min, hlen]; omega
  by_cases h1 : symbol = [27, 91, 65]
  · exact ⟨{ ui := PrevPosition w.ui, log := w.log }, by simp [handleInput, h1], hprev⟩
  by_cases h2 : symbol = [27, 91, 66] ∨ symbol = [9]
  · refine ⟨{ ui := NextPosition w.ui, log := w.log }, ?_, hnext⟩
    rcases h2 with h2 | h2 <;> simp [handleInput, h2]
  by_cases h3 : symbol = [13]
  · by_cases hlast : w.ui.position = (w.ui.fields.length : Int) - 1
    · have hkey : handleInput env w symbol = login env w := by
        simp [handleInput, h3, onLastPosition, hlast]
      rw [hkey]
      cases hauth : env.authenticate (w.log ++ [Effect.restore w.ui.oldState])
          (env.getContents f1) (env.getContents f2)
          (findSession w.ui.config.Sessions (env.getContents f0)) with
      | some d =>
        refine ⟨_, login_of_failure env w f0 f1 f2 [] d hf hauth, rfl, hp0, hp2⟩
      | none =>
        refine ⟨_, login_of_success env w f0 f1 f2 [] hf hauth, ?_⟩
        exact reset_formInRange _
    · exact ⟨{ ui := NextPosition w.ui, log := w.log },
        by simp [handleInput, h3, onLastPosition, hlast], hnext⟩
  · have hfocus : ∃ f, goIndex w.ui.fields w.ui.position = some f := by
      unfold goIndex
      rw [if_pos hp0]
      have hlt : w.ui.position.toNat < w.ui.fields.length := by omega
      exact ⟨_, List.getElem?_eq_getElem hlt⟩
    obtain ⟨f, hfocus⟩ := hfocus
    have h2a : symbol ≠ [27, 91, 66] := fun h => h2 (Or.inl h)
    have h2b : symbol ≠ [9] := fun h => h2 (Or.inr h)
    refine ⟨{ ui := env.onInput f w.ui symbol, log := w.log },
      by simp [handleInput, h1, h2a, h2b, h3, hsym, hfocus], ?_⟩
    obtain ⟨hpos, hfl⟩ := honInput f w.ui symbol
    exact ⟨hfl.trans hlen, by rw [hpos]; exact hp0, by rw [hpos]; exact hp2⟩

/-- A run of keys, none of them control-C, from a state satisfying the form
invariant returns in a state satisfying it. -/
theorem runKeys_formInRange (env : Env)
    (honInput : ∀ f ui symbol, (env.onInput f ui symbol).position = ui.position ∧
      (env.onInput f ui symbol).fields.length = ui.fields.length)
    (keys : List (List Int)) :
    ∀ (w : World), formInRange w.ui → (∀ k ∈ keys, k ≠ [3]) →
      ∃ w', runKeys env w keys = Step.running w' ∧ formInRange w'.ui := by
  induction keys with
  | nil => intro w hinv _; exact ⟨w, rfl, hinv⟩
  | cons k rest ih =>
    intro w hinv hkeys
    obtain ⟨w1, hstep, hinv1⟩ :=
      handleInput_formInRange env honInput w hinv k (hkeys k (List.mem_cons_self _ _))
    obtain ⟨w2, hrun, hinv2⟩ := ih w1 hinv1 (fun k' hk' => hkeys k' (List.mem_cons_of_mem _ hk'))
    refine ⟨w2, ?_, hinv2⟩
    simp only [runKeys, hstep]
    exact hrun

/-- C18: starting from the state built by `New` or by `reset`, for every
finite sequence of key sequences other than control-C handled by
`handleInput`, with any authenticator and with field handlers that change
neither the focus index nor the number of fields, the run returns (no panic,
no exit) and in the state reached the field list has length 3 and the focus
index is within [0, 2]; so the reads `fields[position]`, `fields[0]`,
`fields[1]`, `fields[2]` and the assignment to `fields[2]` are in range. -/
theorem form_keeps_three_fields_and_focus_in_range (env : Env)
    (honInput : ∀ f ui symbol, (env.onInput f ui symbol).position = ui.position ∧
      (env.onInput f ui symbol).fields.length = ui.fields.length)
    (start : World)
    (hstart : (∃ config lines cols state, start.ui = New config lines cols state) ∨
      (∃ w, start = reset w))
    (keys : List (List Int)) (hkeys : ∀ k ∈ keys, k ≠ [3]) :
    ∃ w', runKeys env start keys = Step.running w' ∧
      w'.ui.fields.length = 3 ∧ 0 ≤ w'.ui.position ∧ w'.ui.position ≤ 2 ∧
      (goIndex w'.ui.fields w'.ui.position).isSome = true ∧
      (goIndex w'.ui.fields 0).isSome = true ∧
      (goIndex w'.ui.fields 1).isSome = true ∧
      (goIndex w'.ui.fields 2).isSome = true ∧
      (goAssign w'.ui.fields 2 (field.ofInput (newInput "password" true))).isSome = true := by
  have hinv : formInRange start.ui := by
    rcases hstart with ⟨config, lines, cols, state, h⟩ | ⟨w, h⟩
    · rw [h]; exact New_formInRange config lines cols state
    · rw [h]; exact reset_formInRange w
  obtain ⟨w', hrun, hlen, hp0, hp2⟩ := runKeys_formInRange env honInput keys start hinv hkeys
  obtain ⟨a, b, c, hf⟩ := list_of_length_three w'.ui.fields hlen
  refine ⟨w', hrun, hlen, hp0, hp2, ?_, ?_, ?_, ?_, ?_⟩
  · unfold goIndex
    rw [if_pos hp0]
    have hlt : w'.ui.position.toNat < w'.ui.fields.length := by omega
    rw [List.getElem?_eq_getElem hlt]
    rfl
  · rw [hf]; rfl
  · rw [hf]; rfl
  · rw [hf]; rfl
  · rw [hf]; rfl

/-- C18 on the sample collaborators, from the state `reset` builds, over the
keys "h", up-arrow, Enter, Enter (a failed login), tab. -/
theorem form_keeps_three_fields_and_focus_in_range_witness :
    ((∀ f ui symbol, (sampleEnv.onInput f ui symbol).position = ui.position ∧
        (sampleEnv.onInput f ui symbol).fields.length = ui.fields.length) ∧
      (∀ k ∈ [[104], [27, 91, 65], [13], [13], [9]], k ≠ ([3] : List Int))) ∧
    (∃ w', runKeys sampleEnv (reset { ui := sampleTui, log := [] })
          [[104], [27, 91, 65], [13], [13], [9]] = Step.running w' ∧
      w'.ui.fields.length = 3 ∧ 0 ≤ w'.ui.position ∧ w'.ui.position ≤ 2 ∧
      (goIndex w'.ui.fields w'.ui.position).isSome = true ∧
      (goIndex w'.ui.fields 0).isSome = true ∧
      (goIndex w'.ui.fields 1).isSome = true ∧
      (goIndex w'.ui.fields 2).isSome = true ∧
      (goAssign w'.ui.fields 2 (field.ofInput (newInput "password" true))).isSome = true) :=
  ⟨⟨fun _ _ _ => ⟨rfl, rfl⟩, by decide⟩,
   form_keeps_three_fields_and_focus_in_range sampleEnv (fun _ _ _ => ⟨rfl, rfl⟩)
    (reset { ui := sampleTui, log := [] }) (Or.inr ⟨_, rfl⟩)
    [[104], [27, 91, 65], [13], [13], [9]] (by decide)⟩

/-! ## Banners of single-byte characters -/

/-- Splitting never returns an empty list. -/
theorem splitAux_ne_nil (cs : List Char) : ∀ (cur : List Char), splitAux cur cs ≠ [] := by
  induction cs with
  | nil => intro cur; simp [splitAux]
  | cons c cs ih =>
    intro cur
    unfold splitAux
    split
    · simp
    · exact ih _

/-- Joining a line with a non-empty list of further lines. -/
theorem joinLines_cons (line : String) (rest : List String) (h : rest ≠ []) :
    joinLines (line :: rest) = line.data ++ '\n' :: joinLines rest := by
  cases rest with
  | nil => exact absurd rfl h
  | cons r rs => rfl

/-- Joining the pieces of a split by '\n' gives back the text. -/
theorem splitAux_join (cs : List Char) :
    ∀ (cur : List Char), joinLines (splitAux cur cs) = cur.reverse ++ cs := by
  induction cs with
  | nil => intro cur; simp [splitAux, joinLines]
  | cons c cs ih =>
    intro cur
    unfold splitAux
    split
    · rename_i hc
      rw [joinLines_cons _ _ (splitAux_ne_nil cs []), ih [], hc]
      simp
    · rw [ih (c :: cur)]
      simp

/-- A split by '\n' has one piece more than the text has separators. -/
theorem splitAux_length (cs : List Char) :
    ∀ (cur : List Char), (splitAux cur cs).length = cs.count '\n' + 1 := by
  induction cs with
  | nil => intro cur; simp [splitAux]
  | cons c cs ih =>
    intro cur
    unfold splitAux
    split
    · rename_i hc
      simp [ih [], hc]
    · rename_i hc
      rw [ih (c :: cur), List.count_cons_of_ne (fun h => hc h.symm)]

/-- No piece of a split by '\n' holds a separator. -/
theorem splitAux_no_newline (cs : List Char) :
    ∀ (cur : List Char), '\n' ∉ cur → ∀ line ∈ splitAux cur cs, '\n' ∉ line.data := by
  induction cs with
  | nil =>
    intro cur hcur line hline
    simp only [splitAux, List.mem_singleton] at hline
    rw [hline]
    simpa using hcur
  | cons c cs ih =>
    intro cur hcur line hline
    unfold splitAux at hline
    split at hline
    · rcases List.mem_cons.mp hline with h | h
      · rw [h]; simpa using hcur
      · exact ih [] (by simp) line h
    · rename_i hc
      refine ih (c :: cur) ?_ line hline
      intro hmem
      rcases List.mem_cons.mp hmem with h | h
      · exact hc h.symm
      · exact hcur h

/-- Every character of a piece of a split is a character of the text. -/
theorem splitAux_chars (cs : List Char) :
    ∀ (cur : List Char), ∀ line ∈ splitAux cur cs, ∀ c ∈ line.data, c ∈ cur ∨ c ∈ cs := by
  induction cs with
  | nil =>
    intro cur line hline c hc
    simp only [splitAux, List.mem_singleton] at hline
    rw [hline] at hc
    left
    simpa using hc
  | cons d cs ih =>
    intro cur line hline c hc
    unfold splitAux at hline
    split at hline
    · rcases List.mem_cons.mp hline with h | h
      · rw [h] at hc
        left
        simpa using hc
      · rcases ih [] line h c hc with h' | h'
        · cases h'
        · right; exact List.mem_cons_of_mem _ h'
    · rcases ih (d :: cur) line hline c hc with h' | h'
      · rcases List.mem_cons.mp h' with h'' | h''
        · right; rw [h'']; exact List.mem_cons_self _ _
        · left; exact h''
      · right; exact List.mem_cons_of_mem _ h'

/-- A text of single-byte characters is as many bytes long as it has
characters. -/
theorem utf8ByteSize_go_single (cs : List Char) (h : ∀ c ∈ cs, c.utf8Size = 1) :
    String.utf8ByteSize.go cs = cs.length := by
  induction cs with
  | nil => rfl
  | cons c cs ih =>
    simp only [String.utf8ByteSize.go, List.length_cons]
    rw [ih (fun d hd => h d (List.mem_cons_of_mem _ hd)), h c (List.mem_cons_self _ _)]

/-- For a line of single-byte characters `len` and the rune count agree. -/
theorem goLen_eq_runeCount (line : String) (h : ∀ c ∈ line.data, c.utf8Size = 1) :
    goLen line = runeCount line := by
  unfold goLen runeCount
  have hsize : line.utf8ByteSize = line.data.length := utf8ByteSize_go_single line.data h
  rw [hsize]
  rfl

/-- On lines whose byte length is their rune count, the loop of `newAscii`
computes a running maximum. -/
theorem foldl_longestStep_max (rest : List String)
    (h : ∀ line ∈ rest, goLen line = runeCount line) :
    ∀ (start : Int), start ≤ rest.foldl longestStep start ∧
      (∀ line ∈ rest, runeCount line ≤ rest.foldl longestStep start) ∧
      (rest.foldl longestStep start = start ∨
        ∃ line ∈ rest, runeCount line = rest.foldl longestStep start) := by
  induction rest with
  | nil => intro start; simp
  | cons l rest ih =>
    intro start
    have hl : goLen l = runeCount l := h l (List.mem_cons_self _ _)
    obtain ⟨h1, h2, h3⟩ := ih (fun line hline => h line (List.mem_cons_of_mem _ hline))
      (longestStep start l)
    have hstep : longestStep start l = max start (runeCount l) := by
      unfold longestStep
      rw [hl]
      split <;> omega
    simp only [List.foldl_cons]
    refine ⟨by omega, ?_, ?_⟩
    · intro line hline
      rcases List.mem_cons.mp hline with hh | hh
      · rw [hh]; omega
      · exact h2 line hh
    · rcases h3 with h3 | ⟨line, hline, h3⟩
      · by_cases hcmp : runeCount l ≤ start
        · left; rw [h3, hstep]; omega
        · right
          exact ⟨l, List.mem_cons_self _ _, by rw [h3, hstep]; omega⟩
      · right
        exact ⟨line, List.mem_cons_of_mem _ hline, h3⟩

/-- The width the spec describes is a running maximum as well. -/
theorem specWidth_foldl_max (lines : List String) :
    ∀ (start : Int),
      start ≤ lines.foldl (fun widest line => max widest (runeCount line)) start ∧
      (∀ line ∈ lines,
        runeCount line ≤ lines.foldl (fun widest line => max widest (runeCount line)) start) ∧
      (lines.foldl (fun widest line => max widest (runeCount line)) start = start ∨
        ∃ line ∈ lines,
          runeCount line = lines.foldl (fun widest line => max widest (runeCount line)) start) := by
  induction lines with
  | nil => intro start; simp
  | cons l rest ih =>
    intro start
    obtain ⟨h1, h2, h3⟩ := ih (max start (runeCount l))
    simp only [List.foldl_cons]
    refine ⟨by omega, ?_, ?_⟩
    · intro line hline
      rcases List.mem_cons.mp hline with hh | hh
      · rw [hh]; omega
      · exact h2 line hh
    · rcases h3 with h3 | ⟨line, hline, h3⟩
      · by_cases hcmp : runeCount l ≤ start
        · left; rw [h3]; omega
        · right
          exact ⟨l, List.mem_cons_self _ _, by rw [h3]; omega⟩
      · right
        exact ⟨line, List.mem_cons_of_mem _ hline, h3⟩

/-- C20: for every art string all of whose characters are single-byte,
`newAscii` does not fail; the banner's lines are the pieces of the art
between the '\n' separators in order (joined by '\n' they give back the art,
and none holds a '\n'), there is at least one, so the first line can be read;
the height is the number of lines, which is the number of '\n' plus one; and
the width is the maximum length of the lines: no line is longer, one line is
exactly that long, and it is the width the spec describes. -/
theorem newAscii_of_single_byte_art (art : String)
    (hsingle : ∀ c ∈ art.data, c.utf8Size = 1) :
    ∃ banner, newAscii art = some banner ∧
      banner.strLines = splitLines art ∧
      joinLines banner.strLines = art.data ∧
      (∀ line ∈ banner.strLines, '\n' ∉ line.data) ∧
      (goIndex banner.strLines 0).isSome = true ∧
      banner.lines = (banner.strLines.length : Int) ∧
      banner.lines = (art.data.count '\n' : Int) + 1 ∧
      (∀ line ∈ banner.strLines, goLen line = runeCount line ∧ runeCount line ≤ banner.cols) ∧
      (∃ line ∈ banner.strLines, runeCount line = banner.cols) ∧
      banner.cols = specWidth banner.strLines := by
  have hlines : ∀ line ∈ splitLines art, goLen line = runeCount line := by
    intro line hline
    apply goLen_eq_runeCount
    intro c hc
    rcases splitAux_chars art.data [] line hline c hc with h | h
    · cases h
    · exact hsingle c h
  cases hs : splitLines art with
  | nil => exact absurd hs (splitAux_ne_nil art.data [])
  | cons first rest =>
    rw [hs] at hlines
    have hnew : newAscii art = some
        { strLines := first :: rest
          cols := rest.foldl longestStep (runeCount first)
          lines := ((first :: rest).length : Int) } := by
      simp [newAscii, hs]
    obtain ⟨hm1, hm2, hm3⟩ := foldl_longestStep_max rest
      (fun line hline => hlines line (List.mem_cons_of_mem _ hline)) (runeCount first)
    have hupper : ∀ line ∈ first :: rest,
        runeCount line ≤ rest.foldl longestStep (runeCount first) := by
      intro line hline
      rcases List.mem_cons.mp hline with h | h
      · rw [h]; exact hm1
      · exact hm2 line h
    have hreached : ∃ line ∈ first :: rest,
        runeCount line = rest.foldl longestStep (runeCount first) := by
      rcases hm3 with h | ⟨line, hline, h⟩
      · exact ⟨first, List.mem_cons_self _ _, h.symm⟩
      · exact ⟨line, List.mem_cons_of_mem _ hline, h⟩
    refine ⟨_, hnew, rfl, ?_, ?_, by simp [goIndex], rfl, ?_, ?_, hreached, ?_⟩
    · show joinLines (first :: rest) = art.data
      rw [← hs]
      simpa using splitAux_join art.data []
    · show ∀ line ∈ first :: rest, '\n' ∉ line.data
      rw [← hs]
      exact splitAux_no_newline art.data [] (by simp)
    · show (((first :: rest).length : Nat) : Int) = (art.data.count '\n' : Int) + 1
      rw [← hs]
      have := splitAux_length art.data []
      unfold splitLines
      omega
    · intro line hline
      exact ⟨hlines line hline, hupper line hline⟩
    · show rest.foldl longestStep (runeCount first) = specWidth (first :: rest)
      obtain ⟨hs1, hs2, hs3⟩ := specWidth_foldl_max (first :: rest) 0
      obtain ⟨top, htop, htopeq⟩ := hreached
      have hle : rest.foldl longestStep (runeCount first) ≤ specWidth (first :: rest) := by
        rw [← htopeq]; exact hs2 top htop
      have hge : specWidth (first :: rest) ≤ rest.foldl longestStep (runeCount first) := by
        rcases hs3 with h | ⟨line, hline, h⟩
        · have hfirst : 0 ≤ runeCount first := Int.natCast_nonneg _
          unfold specWidth
          rw [h]
          omega
        · unfold specWidth
          rw [← h]
          exact hupper line hline
      omega

/-- C20 at the art "ab" / "" / "cde" and at the empty art. -/
theorem newAscii_of_single_byte_art_witness :
    ((∀ c ∈ "ab\n\ncde".data, c.utf8Size = 1) ∧ (∀ c ∈ "".data, c.utf8Size = 1)) ∧
    newAscii "ab\n\ncde" = some { strLines := ["ab", "", "cde"], lines := 3, cols := 3 } ∧
    newAscii "" = some { strLines := [""], lines := 1, cols := 0 } ∧
    (∃ banner, newAscii "ab\n\ncde" = some banner ∧
      banner.strLines = splitLines "ab\n\ncde" ∧
      joinLines banner.strLines = "ab\n\ncde".data ∧
      (∀ line ∈ banner.strLines, '\n' ∉ line.data) ∧
      (goIndex banner.strLines 0).isSome = true ∧
      banner.lines = (banner.strLines.length : Int) ∧
      banner.lines = ("ab\n\ncde".data.count '\n' : Int) + 1 ∧
      (∀ line ∈ banner.strLines, goLen line = runeCount line ∧ runeCount line ≤ banner.cols) ∧
      (∃ line ∈ banner.strLines, runeCount line = banner.cols) ∧
      banner.cols = specWidth banner.strLines) :=
  ⟨by decide, by decide, by decide, newAscii_of_single_byte_art "ab\n\ncde" (by decide)⟩

/-! ## A terminal smaller than the banner -/

/-- C13 at two failing inputs.  For the art "a" / "abcdefgh" (2 lines, width
8) on a terminal of 1 row and 4 columns, `draw` has to draw the one line at
index 0 clipped from column 2 on, but it panics on the slice [2:1] of "a" and
draws no row at all.  For the art "éééé" (1 line, width 4, 8 bytes) on a
terminal of 1 row and 2 columns, the row `draw` prints is the bytes 1 and 2 of
the line, which is not the excerpt that starts 1 character in, whatever its
width up to 2 characters. -/
theorem draw_clipped_excerpt_fails :
    newAscii "a\nabcdefgh" = some { strLines := ["a", "abcdefgh"], lines := 2, cols := 8 } ∧
    asciiArt.draw { strLines := ["a", "abcdefgh"], lines := 2, cols := 8 }
        { Lines := 1, Cols := 4 } = DrawResult.panic [] ∧
    maxInt ((2 - 1 : Int).tdiv 2) 0 = 0 ∧
    maxInt ((8 - 4 : Int).tdiv 2) 0 = 2 ∧
    goSlice "a" 2 (minInt (4 + 2) (goLen "a")) = none ∧
    newAscii "éééé" = some { strLines := ["éééé"], lines := 1, cols := 4 } ∧
    asciiArt.draw { strLines := ["éééé"], lines := 1, cols := 4 } { Lines := 1, Cols := 2 }
      = DrawResult.done [Printed.row 0 [169, 195]] ∧
    maxInt ((4 - 2 : Int).tdiv 2) 0 = 1 ∧
    goBytes (specExcerpt "éééé" 1 2) = [195, 169, 195, 169] ∧
    (∀ width ∈ [0, 1, 2], goBytes (specExcerpt "éééé" 1 width) ≠ [169, 195]) := by
  decide

/-- The row loop of `draw` when `k` lines are skipped and no column is, on a
terminal of `rows` rows with `k + rows` not beyond the banner's last line: from
counter `i` on it prints the lines `k + i` up to `k + rows - 1` and returns,
given a budget above the number of rows left. -/
theorem drawLoop_lines_skipped (self : asciiArt) (termSize : TermSize) (startCol : Int)
    (k rows : Nat) (hlines : self.lines = (self.strLines.length : Int))
    (hrows : termSize.Lines = (rows : Int)) (hcols : 0 ≤ termSize.Cols)
    (hfit : k + rows ≤ self.strLines.length) :
    ∀ (fuel i : Nat) (out : List Printed), i ≤ rows → rows - i < fuel →
      drawLoop self termSize (k : Int) 0 startCol fuel i out
        = DrawResult.done (out ++ ((self.strLines.drop (k + i)).take (rows - i)).map (fun line =>
            Printed.row startCol ((goBytes line).take (min termSize.Cols (goLen line)).toNat))) := by
  intro fuel
  induction fuel with
  | zero => intro i out _ hfuel; omega
  | succ fuel ih =>
    intro i out hi hfuel
    unfold drawLoop
    by_cases hlt : i < rows
    · have hcond : (i : Int) < termSize.Lines ∧ (i : Int) + (k : Int) < self.lines := by omega
      rw [if_pos hcond]
      have hidxlt : k + i < self.strLines.length := by omega
      have hidx : goIndex self.strLines ((i : Int) + (k : Int)) = some self.strLines[k + i] := by
        unfold goIndex
        rw [if_pos (by omega)]
        have hnat : ((i : Int) + (k : Int)).toNat = k + i := by omega
        rw [hnat]
        exact List.getElem?_eq_getElem hidxlt
      rw [hidx]
      simp only
      rw [goSlice_from_zero _ _ (by omega)]
      simp only
      have hleft : rows - i = (rows - (i + 1)) + 1 := by omega
      rw [ih (i + 1) _ (by omega) (by omega), List.drop_eq_getElem_cons hidxlt, hleft,
        List.take_succ_cons]
      simp only [List.map_cons, List.append_assoc, List.singleton_append, Int.add_zero]
      rfl
    · have hi' : i = rows := by omega
      have hcond : ¬ ((i : Int) < termSize.Lines ∧ (i : Int) + (k : Int) < self.lines) := by omega
      rw [if_neg hcond, hi']
      simp

/-- Rows of a banner taller than the terminal: for every banner built by
`newAscii` and every terminal with fewer rows than the banner has lines (0 <= R
< bR) and at least as many columns as the banner's width, `draw` returns; it
prints no blank row and exactly the R consecutive banner lines starting at
line index floor((bR - R)/2), each indented by floor((C - bC)/2) spaces. -/
theorem draw_clips_rows_of_taller_banner (art : String) (self : asciiArt)
    (termSize : TermSize) (hbanner : newAscii art = some self)
    (hrows0 : 0 ≤ termSize.Lines) (hrows : termSize.Lines < self.lines)
    (hcols : self.cols ≤ termSize.Cols) :
    self.draw termSize
      = DrawResult.done
          (((self.strLines.drop ((self.lines - termSize.Lines) / 2).toNat).take
              termSize.Lines.toNat).map (fun line =>
                Printed.row ((termSize.Cols - self.cols) / 2)
                  ((goBytes line).take (min termSize.Cols (goLen line)).toNat))) := by
  obtain ⟨_, hlines, hwidth⟩ := newAscii_wellformed art self hbanner
  have hskipL : maxInt ((self.lines - termSize.Lines).tdiv 2) 0
      = (((self.lines - termSize.Lines) / 2).toNat : Int) := by
    rw [tdiv_two_of_nonneg _ (by omega), maxInt_eq_max]; omega
  have hskipC : maxInt ((self.cols - termSize.Cols).tdiv 2) 0 = 0 := by
    have := tdiv_two_nonpos (self.cols - termSize.Cols) (by omega)
    rw [maxInt_eq_max]; omega
  have hstartL : maxInt ((termSize.Lines - self.lines).tdiv 2) 0 = 0 := by
    have := tdiv_two_nonpos (termSize.Lines - self.lines) (by omega)
    rw [maxInt_eq_max]; omega
  have hstartC : maxInt ((termSize.Cols - self.cols).tdiv 2) 0
      = (termSize.Cols - self.cols) / 2 := by
    rw [tdiv_two_of_nonneg _ (by omega), maxInt_eq_max]; omega
  unfold asciiArt.draw
  simp only [hskipL, hskipC, hstartL, hstartC]
  rw [drawLoop_lines_skipped self termSize _ ((self.lines - termSize.Lines) / 2).toNat
    termSize.Lines.toNat hlines (by omega) (by omega) (by omega) _ 0 _ (by omega) (by omega)]
  simp [blankRows]

/-- The rows of a taller banner at the art of five two-letter lines on a
terminal of 3 rows and 10 columns: lines 1 to 3, indented by 4. -/
theorem draw_clips_rows_of_taller_banner_witness :
    (newAscii "ab\ncd\nef\ngh\nij"
        = some { strLines := ["ab", "cd", "ef", "gh", "ij"], lines := 5, cols := 2 } ∧
      (0 : Int) ≤ 3 ∧ (3 : Int) < 5 ∧ (2 : Int) ≤ 10) ∧
    asciiArt.draw { strLines := ["ab", "cd", "ef", "gh", "ij"], lines := 5, cols := 2 }
        { Lines := 3, Cols := 10 }
      = DrawResult.done [Printed.row 4 (goBytes "cd"), Printed.row 4 (goBytes "ef"),
          Printed.row 4 (goBytes "gh")] :=
  ⟨by decide,
   (draw_clips_rows_of_taller_banner "ab\ncd\nef\ngh\nij"
      { strLines := ["ab", "cd", "ef", "gh", "ij"], lines := 5, cols := 2 }
      { Lines := 3, Cols := 10 } (by decide) (by decide) (by decide) (by decide)).trans
    (by decide)⟩

end Aporia
